import Mathlib

/-!
Verification development for the CP-SAT scheduling engine
(`src/scheduler_core`).  The definitions below are a shallow embedding of
the Python source:

* Python `dict` objects are modelled as association lists built with
  `dictUpsert` (insert replaces the value in place, keeping the original
  key position, otherwise appends — the semantics of `d[k] = v`).
* Python `set` objects whose only observations are membership and `len`
  are modelled as duplicate-free lists built with `setInsert`.
* The CP-SAT solver itself is external: a candidate solution is a
  function giving the value of every decision variable `x[m,t,c]`
  (plus the auxiliary `start`/`end` integer variables), and the posted
  constraint families are embedded as executable Boolean checkers over
  such a solution.  Theorems about OPTIMAL/FEASIBLE results take the
  checkers as hypotheses, which is exactly the guarantee the solver
  provides for the model it was given.
* All slot and court quantities are `Nat` (the spec fixes them as
  non-negative integers); penalty weights are `ℚ`, with Python's
  `int(...)` truncation embedded explicitly.
-/

namespace CpSatSched

/-! ### Association-list dictionaries (Python `dict`) -/

def dictUpsert [DecidableEq κ] (k : κ) (v : α) : List (κ × α) → List (κ × α)
  | [] => [(k, v)]
  | e :: rest => if e.1 = k then (k, v) :: rest else e :: dictUpsert k v rest

def dictGet? [DecidableEq κ] (k : κ) : List (κ × α) → Option α
  | [] => none
  | e :: rest => if e.1 = k then some e.2 else dictGet? k rest

def buildDict [DecidableEq κ] (key : α → κ) (xs : List α) : List (κ × α) :=
  xs.foldl (fun d a => dictUpsert (key a) a d) []

/-! ### Duplicate-free membership lists (Python `set`) -/

def setInsert (s : List String) (k : String) : List String :=
  if k ∈ s then s else s ++ [k]

/-! ### Domain models (`scheduler_core/domain/models.py`) -/

/-- `SolverStatus` enum. -/
inductive SolverStatus where
  | OPTIMAL
  | FEASIBLE
  | INFEASIBLE
  | UNKNOWN
  | MODEL_INVALID
deriving DecidableEq, Repr

/-- `Player` dataclass.  Availability windows are half-open `(start, end)`
pairs; penalty weights are rationals standing for Python floats. -/
structure Player where
  id : String
  name : String
  availability : List (Nat × Nat) := []
  rest_slots : Nat := 1
  rest_is_hard : Bool := true
  rest_penalty : ℚ := 10
deriving DecidableEq, Repr

/-- `Match` dataclass. -/
structure Match where
  id : String
  event_code : String
  duration_slots : Nat := 1
  side_a : List String := []
  side_b : List String := []
deriving DecidableEq, Repr

/-- `PreviousAssignment` dataclass. -/
structure PreviousAssignment where
  match_id : String
  slot_id : Nat
  court_id : Nat
  locked : Bool := false
  pinned_slot_id : Option Nat := none
  pinned_court_id : Option Nat := none
deriving DecidableEq, Repr

/-- `ScheduleConfig` dataclass. -/
structure ScheduleConfig where
  total_slots : Nat
  court_count : Nat
  interval_minutes : Nat := 30
  default_rest_slots : Nat := 1
  freeze_horizon_slots : Nat := 0
  current_slot : Nat := 0
  soft_rest_enabled : Bool := false
  rest_slack_penalty : ℚ := 10
  disruption_penalty : ℚ := 1
  late_finish_penalty : ℚ := 1/2
  court_change_penalty : ℚ := 1/2
  enable_court_utilization : Bool := true
  court_utilization_penalty : ℚ := 50
  enable_game_proximity : Bool := false
  min_game_spacing_slots : Option Nat := none
  max_game_spacing_slots : Option Nat := none
  game_proximity_penalty : ℚ := 5
  enable_compact_schedule : Bool := false
  compact_schedule_mode : String := "minimize_makespan"
  compact_schedule_penalty : ℚ := 100
  target_finish_slot : Option Nat := none
  allow_player_overlap : Bool := false
  player_overlap_penalty : ℚ := 50
deriving DecidableEq, Repr

/-- `SolverOptions` dataclass (floats as rationals). -/
structure SolverOptions where
  time_limit_seconds : ℚ := 5
  num_workers : Nat := 4
  log_progress : Bool := false
deriving DecidableEq, Repr

/-- `Assignment` dataclass (output). -/
structure Assignment where
  match_id : String
  slot_id : Nat
  court_id : Nat
  duration_slots : Nat
  moved : Bool := false
  previous_slot_id : Option Nat := none
  previous_court_id : Option Nat := none
deriving DecidableEq, Repr

/-- `SoftViolation` dataclass.  (No verified claim touches the
soft-violation list, but the result type carries it as in the source.) -/
structure SoftViolation where
  type : String
  match_id : Option String := none
  player_id : Option String := none
  description : String := ""
  penalty_incurred : ℚ := 0
deriving DecidableEq, Repr

/-- `ScheduleResult` dataclass.  `runtime_ms` is wall-clock time in the
source; the embedding has no clock and always reports `0`. -/
structure ScheduleResult where
  status : SolverStatus
  objective_score : Option ℚ := none
  runtime_ms : Nat := 0
  assignments : List Assignment := []
  soft_violations : List SoftViolation := []
  infeasible_reasons : List String := []
  unscheduled_matches : List String := []
  moved_count : Nat := 0
  locked_count : Nat := 0
deriving DecidableEq, Repr

/-- `ScheduleRequest` dataclass. -/
structure ScheduleRequest where
  config : ScheduleConfig
  players : List Player
  «matches» : List Match
  previous_assignments : List PreviousAssignment := []
  solver_options : Option SolverOptions := none
deriving DecidableEq, Repr

/-- `self.matches` dict of `CPSATScheduler` / `matches_by_id` of
`GreedyBackend.solve`, keyed by match id. -/
def matchesDict (r : ScheduleRequest) : List (String × Match) :=
  buildDict Match.id r.«matches»

/-- `self.players` / `players_by_id`, keyed by player id. -/
def playersDict (r : ScheduleRequest) : List (String × Player) :=
  buildDict Player.id r.players

/-- `self.previous_assignments` / `prev_by_match`, keyed by match id. -/
def prevDict (r : ScheduleRequest) : List (String × PreviousAssignment) :=
  buildDict PreviousAssignment.match_id r.previous_assignments

/-- `get_player_ids` (`diagnostics.py`) and `_player_ids` (`backends.py`):
`set(side_a) | set(side_b)`.  The set is modelled as the duplicate-free
list of ids in first-occurrence order; only membership and the induced
one-entry-per-player grouping are ever observed. -/
def playerIdsU (m : Match) : List String :=
  (m.side_a ++ m.side_b).foldl (fun acc pid => if pid ∈ acc then acc else acc ++ [pid]) []

/-! ### Variable layer (`engine/variables.py`)

For a match of duration `d`, `create_variables` makes one boolean
`x[m,t,c]` for every `t` in Python's `range(T - d + 1)` and court
`c ∈ 1..C`.  `range(T - d + 1)` is empty when `d > T` (the bound is a
negative Python int there, so plain `Nat` subtraction would be wrong). -/

def startRange (T d : Nat) : List Nat :=
  if d ≤ T then List.range (T - d + 1) else []

def courtRange (C : Nat) : List Nat := List.range' 1 C

/-- The key set of the `x` dict for one match, in the order Python's
`create_variables` inserts them (t ascending, then c ascending). -/
def candKeys (cfg : ScheduleConfig) (d : Nat) : List (Nat × Nat) :=
  (startRange cfg.total_slots d).flatMap fun t => (courtRange cfg.court_count).map fun c => (t, c)

/-- `(match_id, t, c) in self.x`. -/
def varExists (cfg : ScheduleConfig) (d t c : Nat) : Bool :=
  decide (t + d ≤ cfg.total_slots) && decide (1 ≤ c) && decide (c ≤ cfg.court_count)

/-! ### Constraint-family satisfaction checkers (`engine/cpsat_backend.py`)

A solver solution is a valuation `sol : String → Nat → Nat → Bool` of the
`x` variables together with valuations `startv endv : String → Nat` of
the auxiliary `start`/`end` integer variables.  Each checker below is
`true` exactly when the valuation satisfies every constraint that the
corresponding `_add_*` method posts. -/

/-- `_add_exactly_once_constraint`: `AddExactlyOne` over the existing
variables of each match; nothing is posted when the set is empty (a
reason is recorded instead, see `exactlyOnceReasons`). -/
def exactlyOnceOk (cfg : ScheduleConfig) (matchesD : List (String × Match))
    (sol : String → Nat → Nat → Bool) : Bool :=
  matchesD.all fun e =>
    (candKeys cfg e.2.duration_slots).isEmpty ||
      ((candKeys cfg e.2.duration_slots).countP (fun tc => sol e.1 tc.1 tc.2) == 1)

/-- Value of `Σ_{t,c} t · x[m,t,c]` under a valuation. -/
def startSum (cfg : ScheduleConfig) (d : Nat) (sol : String → Nat → Nat → Bool)
    (mid : String) : Nat :=
  ((candKeys cfg d).map (fun tc => if sol mid tc.1 tc.2 then tc.1 else 0)).sum

/-- `link_start_to_x` (`variables.py`): `start[m] = Σ t · x[m,t,c]`,
posted only when the term list is non-empty. -/
def linkOk (cfg : ScheduleConfig) (matchesD : List (String × Match))
    (sol : String → Nat → Nat → Bool) (startv : String → Nat) : Bool :=
  matchesD.all fun e =>
    (candKeys cfg e.2.duration_slots).isEmpty ||
      (startv e.1 == startSum cfg e.2.duration_slots sol e.1)

/-- `create_variables`: `end[m] = start[m] + d`. -/
def endLinkOk (matchesD : List (String × Match))
    (startv endv : String → Nat) : Bool :=
  matchesD.all fun e => endv e.1 == startv e.1 + e.2.duration_slots

/-- `_add_lock_pin_constraints`: a locked previous assignment pins its
variable to 1 when the variable exists (otherwise only a reason is
recorded); a non-locked one zeroes every variable off the pinned slot
and/or off the pinned court. -/
def lockPinsOk (cfg : ScheduleConfig) (matchesD : List (String × Match))
    (prevD : List (String × PreviousAssignment))
    (sol : String → Nat → Nat → Bool) : Bool :=
  prevD.all fun e =>
    match dictGet? e.1 matchesD with
    | none => true
    | some m =>
      if e.2.locked then
        !(varExists cfg m.duration_slots e.2.slot_id e.2.court_id) ||
          sol e.1 e.2.slot_id e.2.court_id
      else
        (match e.2.pinned_slot_id with
          | none => true
          | some tp => (startRange cfg.total_slots m.duration_slots).all fun t =>
              t == tp || (courtRange cfg.court_count).all fun c => !(sol e.1 t c))
        &&
        (match e.2.pinned_court_id with
          | none => true
          | some cp => (startRange cfg.total_slots m.duration_slots).all fun t =>
              (courtRange cfg.court_count).all fun c => c == cp || !(sol e.1 t c))

/-- `_add_freeze_horizon_constraint`: every non-locked previous
assignment of a known match with `slot_id < current_slot +
freeze_horizon_slots` whose variable exists is pinned to 1. -/
def freezePinsOk (cfg : ScheduleConfig) (matchesD : List (String × Match))
    (prevD : List (String × PreviousAssignment))
    (sol : String → Nat → Nat → Bool) : Bool :=
  prevD.all fun e =>
    match dictGet? e.1 matchesD with
    | none => true
    | some m =>
      if e.2.locked then true
      else if e.2.slot_id < cfg.current_slot + cfg.freeze_horizon_slots then
        !(varExists cfg m.duration_slots e.2.slot_id e.2.court_id) ||
          sol e.1 e.2.slot_id e.2.court_id
      else true

/-! Player-to-matches grouping (`player_matches` defaultdict in
`_add_rest_constraint` and friends): for each match (in dict order) and
each player in its player set, append the match to that player's
bucket. -/

def dictAppend [DecidableEq κ] (k : κ) (v : α) : List (κ × List α) → List (κ × List α)
  | [] => [(k, [v])]
  | e :: rest => if e.1 = k then (e.1, e.2 ++ [v]) :: rest else e :: dictAppend k v rest

def playerMatchesOf (matchesD : List (String × Match)) : List (String × List Match) :=
  matchesD.foldl
    (fun d e => (playerIdsU e.2).foldl (fun d pid => dictAppend pid e.2 d) d) []

/-- `rest_slots = player.rest_slots if player else config.default_rest_slots`. -/
def restSlotsOf (playersD : List (String × Player)) (cfg : ScheduleConfig)
    (pid : String) : Nat :=
  match dictGet? pid playersD with
  | some p => p.rest_slots
  | none => cfg.default_rest_slots

/-- `is_hard = player.rest_is_hard if player else True`. -/
def restIsHardOf (playersD : List (String × Player)) (pid : String) : Bool :=
  match dictGet? pid playersD with
  | some p => p.rest_is_hard
  | none => true

/-- Check `P a b` for every ordered pair of list positions `i < j`
(the `for i / for j in range(i+1, ...)` double loop). -/
def pairsOk (P : α → α → Bool) : List α → Bool
  | [] => true
  | a :: rest => rest.all (P a) && pairsOk P rest

/-- Satisfaction of the pair of half-reified rest constraints for one
ordered pair: the solver chooses the orientation boolean, so the posted
pair is satisfied iff one of the two inequalities holds. -/
def restPairBool (playersD : List (String × Player)) (cfg : ScheduleConfig)
    (startv endv : String → Nat) (pid : String) (a b : Match) : Bool :=
  let rest := restSlotsOf playersD cfg pid
  decide (endv a.id + rest ≤ startv b.id) || decide (endv b.id + rest ≤ startv a.id)

/-- Soft branch of `_add_rest_constraint`: with slack `0 ≤ s ≤ rest`,
`end_i + rest - s ≤ start_j` is satisfiable (for the solver-chosen slack)
iff `end_i ≤ start_j`; the checker states the projection of the posted
constraints onto the `x`/`start`/`end` valuation. -/
def restSoftPairBool (startv endv : String → Nat) (a b : Match) : Bool :=
  decide (endv a.id ≤ startv b.id) || decide (endv b.id ≤ startv a.id)

/-- `_add_rest_constraint` satisfaction over all players and pairs. -/
def restFamilyOk (cfg : ScheduleConfig) (playersD : List (String × Player))
    (matchesD : List (String × Match)) (startv endv : String → Nat) : Bool :=
  (playerMatchesOf matchesD).all fun e =>
    if e.2.length ≤ 1 then true
    else if restIsHardOf playersD e.1 || !cfg.soft_rest_enabled then
      pairsOk (restPairBool playersD cfg startv endv e.1) e.2
    else
      pairsOk (restSoftPairBool startv endv) e.2

/-! ### Infeasibility reasons recorded during the build -/

/-- Reasons appended by `_add_exactly_once_constraint` when a match has
no variables at all. -/
def exactlyOnceReasons (cfg : ScheduleConfig)
    (matchesD : List (String × Match)) : List String :=
  matchesD.filterMap fun e =>
    if (candKeys cfg e.2.duration_slots).isEmpty
    then some ("Match " ++ e.2.event_code ++ ": no valid time slots available")
    else none

/-- Reasons appended by `_add_lock_pin_constraints` when a locked
assignment's variable does not exist. -/
def lockReasons (cfg : ScheduleConfig) (matchesD : List (String × Match))
    (prevD : List (String × PreviousAssignment)) : List String :=
  prevD.filterMap fun e =>
    match dictGet? e.1 matchesD with
    | none => none
    | some m =>
      if e.2.locked &&
          !(varExists cfg m.duration_slots e.2.slot_id e.2.court_id)
      then some ("Match " ++ m.event_code ++ ": locked assignment (" ++
        toString e.2.slot_id ++ ", " ++ toString e.2.court_id ++ ") is invalid")
      else none

/-- `self.infeasible_reasons` at the end of `build()` — exactly-once
reasons first, then lock reasons (the only two appenders). -/
def buildReasons (r : ScheduleRequest) : List String :=
  exactlyOnceReasons r.config (matchesDict r) ++
    lockReasons r.config (matchesDict r) (prevDict r)

/-! ### The internal locked-match set -/

/-- `self.locked_matches` after `set_previous_assignments`: match ids of
every previous assignment in the request list with `locked=True`. -/
def lockedFromList (pas : List PreviousAssignment) : List String :=
  pas.foldl (fun s pa => if pa.locked then setInsert s pa.match_id else s) []

/-- The per-entry test of `_add_freeze_horizon_constraint`: the match is
known, the previous assignment is not locked, its slot lies before
`current_slot + freeze_horizon_slots` (no lower bound in the source!),
and the pinned variable exists. -/
def frozenCond (cfg : ScheduleConfig) (matchesD : List (String × Match))
    (e : String × PreviousAssignment) : Bool :=
  match dictGet? e.1 matchesD with
  | none => false
  | some m =>
    !e.2.locked &&
      decide (e.2.slot_id < cfg.current_slot + cfg.freeze_horizon_slots) &&
      varExists cfg m.duration_slots e.2.slot_id e.2.court_id

/-- Ids that `_add_freeze_horizon_constraint` adds: non-locked previous
assignments of known matches inside the freeze horizon whose variable
exists. -/
def addFrozen (cfg : ScheduleConfig) (matchesD : List (String × Match))
    (prevD : List (String × PreviousAssignment)) (s0 : List String) : List String :=
  prevD.foldl (fun s e =>
    if frozenCond cfg matchesD e then setInsert s e.1 else s) s0

/-- `self.locked_matches` after `build()`. -/
def cpsatLockedSet (r : ScheduleRequest) : List String :=
  addFrozen r.config (matchesDict r) (prevDict r)
    (lockedFromList r.previous_assignments)

/-! ### Solution extraction (`engine/extraction.py`) -/

/-- The body of `extract_solution`'s per-match loop: the first `(t,c)`
with `x[m,t,c]=1` (unique under exactly-once) becomes the assignment;
`moved` is set only for non-locked matches whose previous `(slot,court)`
differs, and only then are the previous coordinates reported. -/
def extractOne (cfg : ScheduleConfig)
    (prevD : List (String × PreviousAssignment)) (lockedSet : List String)
    (sol : String → Nat → Nat → Bool) (mid : String) (m : Match) :
    Option Assignment :=
  match (candKeys cfg m.duration_slots).find? (fun tc => sol mid tc.1 tc.2) with
  | none => none
  | some tc =>
    let prev := dictGet? mid prevD
    let movedB : Bool := match prev with
      | some pa => !(decide (mid ∈ lockedSet)) &&
          (decide (pa.slot_id ≠ tc.1) || decide (pa.court_id ≠ tc.2))
      | none => false
    some { match_id := mid, slot_id := tc.1, court_id := tc.2,
           duration_slots := m.duration_slots, moved := movedB,
           previous_slot_id := if movedB then prev.map PreviousAssignment.slot_id else none,
           previous_court_id := if movedB then prev.map PreviousAssignment.court_id else none }

/-- `extract_solution`: assignments in match-dict order plus the moved
count.  (Soft-violation reporting reads the slack variables, which no
verified claim touches; it is not embedded.) -/
def extract_solution (cfg : ScheduleConfig) (matchesD : List (String × Match))
    (prevD : List (String × PreviousAssignment)) (lockedSet : List String)
    (sol : String → Nat → Nat → Bool) : List Assignment × Nat :=
  let asgs := matchesD.filterMap fun e => extractOne cfg prevD lockedSet sol e.1 e.2
  (asgs, asgs.countP (fun a => a.moved))

/-! ### Infeasibility diagnostics (`engine/diagnostics.py`) -/

def playerSlotNeeds (matchesD : List (String × Match)) : List (String × Nat) :=
  matchesD.foldl
    (fun d e => (playerIdsU e.2).foldl
      (fun d pid =>
        match dictGet? pid d with
        | some n => dictUpsert pid (n + e.2.duration_slots) d
        | none => dictUpsert pid e.2.duration_slots d) d) []

def diagnose_infeasibility (matchesD : List (String × Match))
    (playersD : List (String × Player)) (cfg : ScheduleConfig)
    (existing : List String) : List String :=
  let r1 := if matchesD.isEmpty then existing ++ ["No matches to schedule"] else existing
  let totalNeed := (matchesD.map (fun e => e.2.duration_slots)).sum
  let cap := cfg.total_slots * cfg.court_count
  let r2 := if cap < totalNeed then
      r1 ++ ["Not enough capacity: " ++ toString totalNeed ++
        " match-slots needed, but only " ++ toString cap ++ " available"]
    else r1
  let r3 := (playerSlotNeeds matchesD).foldl (fun acc e =>
      match dictGet? e.1 playersD with
      | none => acc
      | some p =>
        if p.availability ≠ [] then
          let avail := (p.availability.map (fun w => w.2 - w.1)).sum
          if avail < e.2 then
            acc ++ ["Player " ++ p.name ++ " needs " ++ toString e.2 ++
              " slots but only available for " ++ toString avail]
          else acc
        else acc) r2
  if r3.isEmpty then
    ["Could not determine specific cause - constraints may be too restrictive"]
  else r3

/-! ### `CPSATScheduler.solve`

The OR-Tools solver is external to the embedding.  Its outcome is an
abstract status together with (for OPTIMAL/FEASIBLE) a valuation of the
decision variables; the theorems about feasible results additionally
assume the valuation satisfies the posted constraint families, which is
the contract of the solver. -/

inductive CpStatus where
  | optimal
  | feasible
  | infeasible
  | unknown
  | model_invalid
deriving DecidableEq, Repr

def mapStatus : CpStatus → SolverStatus
  | .optimal => .OPTIMAL
  | .feasible => .FEASIBLE
  | .infeasible => .INFEASIBLE
  | .unknown => .UNKNOWN
  | .model_invalid => .MODEL_INVALID

/-- `CPSATScheduler.solve` for a fully built scheduler (the
`CPSATBackend.solve` pipeline: `add_players`, `add_matches`,
`set_previous_assignments`, `build`, `solve`). -/
def cpsatSolve (r : ScheduleRequest) (st : CpStatus)
    (sol : String → Nat → Nat → Bool) : ScheduleResult :=
  let cfg := r.config
  let matchesD := matchesDict r
  let reasons := buildReasons r
  if reasons.isEmpty then
    match st with
    | .optimal | .feasible =>
      let lockedFull := cpsatLockedSet r
      let ex := extract_solution cfg matchesD (prevDict r) lockedFull sol
      { status := mapStatus st, objective_score := none, runtime_ms := 0,
        assignments := ex.1, soft_violations := [], infeasible_reasons := [],
        unscheduled_matches := [], moved_count := ex.2,
        locked_count := lockedFull.length }
    | _ =>
      { status := mapStatus st, objective_score := none, runtime_ms := 0,
        assignments := [], soft_violations := [],
        infeasible_reasons :=
          diagnose_infeasibility matchesD (playersDict r) cfg reasons,
        unscheduled_matches := matchesD.map Prod.fst,
        moved_count := 0, locked_count := 0 }
  else
    { status := .INFEASIBLE, objective_score := none, runtime_ms := 0,
      assignments := [], soft_violations := [], infeasible_reasons := reasons,
      unscheduled_matches := matchesD.map Prod.fst,
      moved_count := 0, locked_count := 0 }

/-! ### Objective weight scaling (`_build_objective`)

Every penalty weight enters the objective through Python's
`int(w * 10)`, which truncates toward zero.  `intTrunc` is that
conversion on rationals. -/

def intTrunc (q : ℚ) : ℤ :=
  if q < 0 then -(Int.floor (-q)) else Int.floor q

def courtUtilCoeff (cfg : ScheduleConfig) : ℤ :=
  intTrunc (cfg.court_utilization_penalty * 10)

def restSlackCoeff (playersD : List (String × Player)) (cfg : ScheduleConfig)
    (pid : String) : ℤ :=
  let penalty := match dictGet? pid playersD with
    | some p => p.rest_penalty
    | none => cfg.rest_slack_penalty
  intTrunc (penalty * 10)

def proximityCoeff (cfg : ScheduleConfig) : ℤ :=
  intTrunc (cfg.game_proximity_penalty * 10)

def disruptionCoeff (cfg : ScheduleConfig) : ℤ :=
  intTrunc (cfg.disruption_penalty * 10)

def courtChangeCoeff (cfg : ScheduleConfig) : ℤ :=
  intTrunc (cfg.court_change_penalty * 10)

def lateFinishCoeff (cfg : ScheduleConfig) : ℤ :=
  intTrunc (cfg.late_finish_penalty * 10)

def compactCoeff (cfg : ScheduleConfig) : ℤ :=
  intTrunc (cfg.compact_schedule_penalty * 10)

def overlapCoeff (cfg : ScheduleConfig) : ℤ :=
  intTrunc (cfg.player_overlap_penalty * 10)

/-! ### Greedy backend (`engine/backends.py`, `GreedyBackend.solve`) -/

/-- `locked` set of `GreedyBackend.solve`: first the ids of all locked
previous assignments, then (second pass over the request list) every
non-locked one with `slot_id < current_slot + freeze_horizon_slots`. -/
def greedyLocked (r : ScheduleRequest) : List String :=
  let freezeUntil := r.config.current_slot + r.config.freeze_horizon_slots
  let s0 := r.previous_assignments.foldl
    (fun s pa => if pa.locked then setInsert s pa.match_id else s) []
  r.previous_assignments.foldl
    (fun s pa =>
      if decide (pa.slot_id < freezeUntil) && !pa.locked
      then setInsert s pa.match_id else s) s0

/-- Mutable state of `GreedyBackend.solve`: `slot_court_to_match`,
`match_to_assignment`, `moved_count`. -/
structure GreedySt where
  slotCourt : List ((Nat × Nat) × String)
  assigned : List (String × Assignment)
  movedCount : Nat
deriving Repr

/-- `occupies(slot, court, duration)`. -/
def occupies (slot court duration : Nat) : List (Nat × Nat) :=
  (List.range duration).map fun i => (slot + i, court)

/-- Record a placement: store the assignment and mark the occupied cells. -/
def placeMatch (st : GreedySt) (a : Assignment) : GreedySt :=
  { st with
    assigned := dictUpsert a.match_id a st.assigned
    slotCourt := (occupies a.slot_id a.court_id a.duration_slots).foldl
      (fun sc cell => dictUpsert cell a.match_id sc) st.slotCourt }

/-- `player_busy(pid, slot, duration)`.  (Python's `if not mid` treats
the empty string as missing too; the embedding assumes non-empty match
ids, as every id the engine sees is.) -/
def playerBusy (cfg : ScheduleConfig) (matchesD : List (String × Match))
    (st : GreedySt) (pid : String) (slot duration : Nat) : Bool :=
  (List.range' slot duration).any fun t =>
    (courtRange cfg.court_count).any fun c =>
      match dictGet? (t, c) st.slotCourt with
      | none => false
      | some mid2 =>
        match dictGet? mid2 matchesD with
        | none => false
        | some m2 => decide (pid ∈ playerIdsU m2)

/-- `available(pid, slot, duration)`. -/
def availableFor (playersD : List (String × Player))
    (pid : String) (slot duration : Nat) : Bool :=
  match dictGet? pid playersD with
  | none => true
  | some p =>
    p.availability.isEmpty ||
      p.availability.any fun w =>
        (List.range' slot duration).all fun t => decide (w.1 ≤ t) && decide (t < w.2)

/-- `feasible(m, slot, court)`. -/
def feasibleAt (cfg : ScheduleConfig) (matchesD : List (String × Match))
    (playersD : List (String × Player)) (st : GreedySt)
    (m : Match) (slot court : Nat) : Bool :=
  decide (slot + m.duration_slots ≤ cfg.total_slots)
  && (occupies slot court m.duration_slots).all
      (fun cell => (dictGet? cell st.slotCourt).isNone)
  && (playerIdsU m).all fun pid =>
      !(playerBusy cfg matchesD st pid slot m.duration_slots)
      && availableFor playersD pid slot m.duration_slots

/-- The assignment emitted by the first (lock/freeze) loop. -/
def lockedAsg (mid : String) (pa : PreviousAssignment) (m : Match) : Assignment :=
  { match_id := mid, slot_id := pa.slot_id, court_id := pa.court_id,
    duration_slots := m.duration_slots, moved := false,
    previous_slot_id := none, previous_court_id := none }

/-- Body of the first loop of `GreedyBackend.solve`, for one match id. -/
def lockBody (cfg : ScheduleConfig) (matchesD : List (String × Match))
    (prevD : List (String × PreviousAssignment)) (lockedSet : List String)
    (st : GreedySt) (mid : String) : GreedySt :=
  match dictGet? mid matchesD with
  | none => st
  | some m =>
    match dictGet? mid prevD with
    | none => st
    | some prev =>
      if decide (mid ∈ lockedSet) &&
          decide (prev.slot_id + m.duration_slots ≤ cfg.total_slots) then
        placeMatch st (lockedAsg mid prev m)
      else st

/-- First loop of `GreedyBackend.solve`: place every locked/frozen match
at its previous `(slot, court)` — provided it fits the horizon. -/
def greedyLockPhase (cfg : ScheduleConfig) (matchesD : List (String × Match))
    (prevD : List (String × PreviousAssignment)) (lockedSet : List String)
    (order : List String) (st0 : GreedySt) : GreedySt :=
  order.foldl (lockBody cfg matchesD prevD lockedSet) st0

/-- The `for t ... for c ...` search of the second loop: first feasible
`(t, c)` in increasing `t`, then increasing `c`. -/
def findPlacement (cfg : ScheduleConfig) (matchesD : List (String × Match))
    (playersD : List (String × Player)) (st : GreedySt) (m : Match) :
    Option (Nat × Nat) :=
  (startRange cfg.total_slots m.duration_slots).findSome? fun t =>
    ((courtRange cfg.court_count).find? fun c =>
        feasibleAt cfg matchesD playersD st m t c).map fun c => (t, c)

/-- Body of the second loop of `GreedyBackend.solve`, for one match id. -/
def placeBody (cfg : ScheduleConfig) (matchesD : List (String × Match))
    (playersD : List (String × Player))
    (prevD : List (String × PreviousAssignment))
    (st : GreedySt) (mid : String) : GreedySt :=
  if (dictGet? mid st.assigned).isSome then st
  else
    match dictGet? mid matchesD with
    | none => st
    | some m =>
      let prev := dictGet? mid prevD
      match findPlacement cfg matchesD playersD st m with
      | none => st
      | some tc =>
        let movedB : Bool := match prev with
          | some pa => decide (pa.slot_id ≠ tc.1) || decide (pa.court_id ≠ tc.2)
          | none => false
        let a : Assignment :=
          { match_id := mid, slot_id := tc.1, court_id := tc.2,
            duration_slots := m.duration_slots, moved := movedB,
            previous_slot_id := prev.map PreviousAssignment.slot_id,
            previous_court_id := prev.map PreviousAssignment.court_id }
        let st1 := if movedB then { st with movedCount := st.movedCount + 1 } else st
        placeMatch st1 a

/-- Second loop of `GreedyBackend.solve`: place every still-unassigned
match at the first feasible `(t, c)`. -/
def greedyPlacePhase (cfg : ScheduleConfig) (matchesD : List (String × Match))
    (playersD : List (String × Player))
    (prevD : List (String × PreviousAssignment))
    (order : List String) (st0 : GreedySt) : GreedySt :=
  order.foldl (placeBody cfg matchesD playersD prevD) st0

/-- The state of `GreedyBackend.solve` after both placement loops. -/
def greedyFinalSt (r : ScheduleRequest) : GreedySt :=
  let cfg := r.config
  let matchesD := matchesDict r
  let prevD := prevDict r
  let order := r.«matches».map Match.id
  let st0 : GreedySt := { slotCourt := [], assigned := [], movedCount := 0 }
  let st1 := greedyLockPhase cfg matchesD prevD (greedyLocked r) order st0
  greedyPlacePhase cfg matchesD (playersDict r) prevD order st1

/-- `GreedyBackend.solve`.  (The unplaceable-matches reason string uses
Lean's list printing rather than Python's repr; no claim inspects it.) -/
def greedySolve (r : ScheduleRequest) : ScheduleResult :=
  let order := r.«matches».map Match.id
  let st2 := greedyFinalSt r
  let assignments := order.filterMap fun mid => dictGet? mid st2.assigned
  let unscheduled := order.filter fun mid => (dictGet? mid st2.assigned).isNone
  { status := if unscheduled.isEmpty then .FEASIBLE else .INFEASIBLE
    objective_score := none
    runtime_ms := 0
    assignments := assignments
    soft_violations := []
    infeasible_reasons :=
      if unscheduled.isEmpty then []
      else ["Greedy backend could not place: " ++ toString unscheduled]
    unscheduled_matches := unscheduled
    moved_count := st2.movedCount
    locked_count := (greedyLocked r).length }

/-! ### Live-ops layer (`engine/live_ops.py`) -/

/-- `TournamentAssignment` (`domain/tournament.py`), as used by
`apply_freeze_horizon`.  The pin fields are observable state (the bridge
copies them into `PreviousAssignment`), so the frame theorem must cover
them too. -/
structure TournamentAssignment where
  play_unit_id : String
  slot_id : Nat
  court_id : Nat
  duration_slots : Nat := 1
  locked : Bool := false
  pinned_slot_id : Option Nat := none
  pinned_court_id : Option Nat := none
  actual_start_slot : Option Nat := none
  actual_end_slot : Option Nat := none
deriving DecidableEq, Repr

/-- `apply_freeze_horizon(state, config)`: mark every assignment with
`current_slot ≤ slot_id < current_slot + freeze_horizon_slots` as locked.
`state.assignments` is a dict keyed by play-unit id; the in-place field
update is modelled functionally. -/
def apply_freeze_horizon (assignments : List (String × TournamentAssignment))
    (cfg : ScheduleConfig) : List (String × TournamentAssignment) :=
  assignments.map fun e =>
    if cfg.current_slot ≤ e.2.slot_id ∧
        e.2.slot_id < cfg.current_slot + cfg.freeze_horizon_slots
    then (e.1, { e.2 with locked := true })
    else e

/-- `handle_court_outage(config, excluded_court_ids)`: the remaining
court ids are `{1..court_count} \ excluded`; the new config takes
`max(1, len(available))` courts and passes on only the eleven fields
named in the constructor call, every other field reverting to its
dataclass default. -/
def handle_court_outage (cfg : ScheduleConfig) (excluded_court_ids : List Nat) :
    ScheduleConfig :=
  let available := (courtRange cfg.court_count).filter
    (fun c => decide (c ∉ excluded_court_ids))
  { total_slots := cfg.total_slots
    court_count := max 1 available.length
    interval_minutes := cfg.interval_minutes
    default_rest_slots := cfg.default_rest_slots
    freeze_horizon_slots := cfg.freeze_horizon_slots
    current_slot := cfg.current_slot
    soft_rest_enabled := cfg.soft_rest_enabled
    rest_slack_penalty := cfg.rest_slack_penalty
    disruption_penalty := cfg.disruption_penalty
    late_finish_penalty := cfg.late_finish_penalty
    court_change_penalty := cfg.court_change_penalty }

/-! ### Concrete instances used by witnesses and counterexamples -/

def cfgTiny : ScheduleConfig := { total_slots := 1, court_count := 1 }

def cfgFreeze : ScheduleConfig :=
  { total_slots := 4, court_count := 1, freeze_horizon_slots := 2 }

def cfgSkew : ScheduleConfig :=
  { total_slots := 10, court_count := 1, current_slot := 5, freeze_horizon_slots := 0 }

def cfgOutage : ScheduleConfig :=
  { total_slots := 5, court_count := 2, enable_game_proximity := true }

def cfgTrunc : ScheduleConfig :=
  { total_slots := 1, court_count := 1, disruption_penalty := 3/20 }

def cfgRest : ScheduleConfig := { total_slots := 10, court_count := 1 }

def playerOne : Player := { id := "p1", name := "Pone", rest_slots := 2 }

def matchA : Match :=
  { id := "mA", event_code := "A", duration_slots := 1,
    side_a := ["p1"], side_b := ["p2"] }

def matchB : Match :=
  { id := "mB", event_code := "B", duration_slots := 1,
    side_a := ["p1"], side_b := ["p3"] }

def matchF1 : Match :=
  { id := "f1", event_code := "F1", duration_slots := 1,
    side_a := ["p1"], side_b := ["p2"] }

def matchF2 : Match :=
  { id := "f2", event_code := "F2", duration_slots := 1,
    side_a := ["p3"], side_b := ["p4"] }

def matchLong : Match :=
  { id := "mL", event_code := "L", duration_slots := 2,
    side_a := ["p1"], side_b := ["p2"] }

/-- A locked previous assignment whose slot does not fit the horizon
(`1 + 1 > 1 = total_slots`). -/
def rLockedLate : ScheduleRequest :=
  { config := cfgTiny, players := [], «matches» := [matchA],
    previous_assignments :=
      [{ match_id := "mA", slot_id := 1, court_id := 1, locked := true }] }

/-- One locked and one frozen previous assignment, both representable. -/
def rFreezeMix : ScheduleRequest :=
  { config := cfgFreeze, players := [], «matches» := [matchF1, matchF2],
    previous_assignments :=
      [{ match_id := "f1", slot_id := 1, court_id := 1, locked := true },
       { match_id := "f2", slot_id := 0, court_id := 1 }] }

def solFreezeMix : String → Nat → Nat → Bool := fun mid t c =>
  (mid == "f1" && t == 1 && c == 1) || (mid == "f2" && t == 0 && c == 1)

def rEmptyReq : ScheduleRequest :=
  { config := cfgTiny, players := [], «matches» := [] }

def rSingle : ScheduleRequest :=
  { config := cfgTiny, players := [], «matches» := [matchA] }

def solSingle : String → Nat → Nat → Bool := fun mid t c =>
  mid == "mA" && t == 0 && c == 1

/-- A non-locked previous assignment strictly below `current_slot`. -/
def rBelowWindow : ScheduleRequest :=
  { config := cfgSkew, players := [], «matches» := [matchA],
    previous_assignments := [{ match_id := "mA", slot_id := 0, court_id := 1 }] }

/-- A match longer than the horizon: no `x` variables at all. -/
def rLongMatch : ScheduleRequest :=
  { config := cfgTiny, players := [], «matches» := [matchLong] }

/-- Two matches sharing hard-rest player `p1`. -/
def rRest : ScheduleRequest :=
  { config := cfgRest, players := [playerOne], «matches» := [matchA, matchB] }

def solRest : String → Nat → Nat → Bool := fun mid t c =>
  (mid == "mA" && t == 0 && c == 1) || (mid == "mB" && t == 3 && c == 1)

def startvRest : String → Nat := fun mid => if mid == "mA" then 0 else 3

def endvRest : String → Nat := fun mid => if mid == "mA" then 1 else 4

/-- Requests differing only in the pin fields of a previous assignment. -/
def rPinA : ScheduleRequest :=
  { config := cfgTiny, players := [], «matches» := [matchA],
    previous_assignments :=
      [{ match_id := "mA", slot_id := 0, court_id := 1,
         pinned_slot_id := some 5 }] }

def rPinB : ScheduleRequest :=
  { config := cfgTiny, players := [], «matches» := [matchA],
    previous_assignments :=
      [{ match_id := "mA", slot_id := 0, court_id := 1,
         pinned_court_id := some 9 }] }

/-- `erasePA` forgets the pin fields of a previous assignment — the
fields `GreedyBackend.solve` never reads. -/
def erasePA (pa : PreviousAssignment) : PreviousAssignment :=
  { pa with pinned_slot_id := none, pinned_court_id := none }

/-! ## General lemmas about the container embeddings -/

theorem dictGet?_upsert_self [DecidableEq κ] (k : κ) (v : α) (d : List (κ × α)) :
    dictGet? k (dictUpsert k v d) = some v := by
  induction d with
  | nil => simp [dictUpsert, dictGet?]
  | cons e rest ih =>
    by_cases h : e.1 = k
    · simp [dictUpsert, dictGet?, h]
    · simp [dictUpsert, dictGet?, h, ih]

theorem dictGet?_upsert_ne [DecidableEq κ] (k k' : κ) (v : α) (d : List (κ × α))
    (h : k' ≠ k) : dictGet? k' (dictUpsert k v d) = dictGet? k' d := by
  induction d with
  | nil =>
    simp only [dictUpsert, dictGet?]
    rw [if_neg (fun h' => h h'.symm)]
  | cons e rest ih =>
    by_cases he : e.1 = k
    · subst he
      simp only [dictUpsert, if_pos rfl, dictGet?]
      rw [if_neg (fun h' => h h'.symm), if_neg (fun h' => h h'.symm)]
    · simp only [dictUpsert, if_neg he, dictGet?, ih]

theorem dictGet?_mem [DecidableEq κ] {k : κ} {v : α} {d : List (κ × α)}
    (h : dictGet? k d = some v) : (k, v) ∈ d := by
  induction d with
  | nil => simp [dictGet?] at h
  | cons e rest ih =>
    by_cases he : e.1 = k
    · simp [dictGet?, he] at h
      have he2 : e = (k, v) := by
        cases e
        simp_all
      rw [← he2]
      exact List.mem_cons_self _ _
    · simp [dictGet?, he] at h
      exact List.mem_cons_of_mem _ (ih h)

theorem dictUpsert_ne_nil [DecidableEq κ] (k : κ) (v : α) (d : List (κ × α)) :
    dictUpsert k v d ≠ [] := by
  cases d with
  | nil => simp [dictUpsert]
  | cons e rest =>
    by_cases h : e.1 = k <;> simp [dictUpsert, h]

theorem buildDictFold_eq_nil [DecidableEq κ] (key : α → κ) :
    ∀ (l : List α) (d : List (κ × α)),
      l.foldl (fun d a => dictUpsert (key a) a d) d = [] → d = [] ∧ l = [] := by
  intro l
  induction l with
  | nil => intro d h; exact ⟨h, rfl⟩
  | cons a rest ih =>
    intro d h
    have h' := ih (dictUpsert (key a) a d) h
    exact absurd h'.1 (dictUpsert_ne_nil _ _ _)

theorem buildDict_eq_nil [DecidableEq κ] (key : α → κ) (l : List α) :
    buildDict key l = [] ↔ l = [] := by
  constructor
  · intro h
    exact (buildDictFold_eq_nil key l [] h).2
  · intro h; subst h; rfl

/-- A value stored in a dict built from a list was an element of that list,
and was stored under its own key. -/
theorem dictGet?_buildDict_mem [DecidableEq κ] (key : α → κ) {k : κ} {v : α} :
    ∀ (l : List α) (d : List (κ × α)),
      dictGet? k (l.foldl (fun d a => dictUpsert (key a) a d) d) = some v →
      (v ∈ l ∧ key v = k) ∨ dictGet? k d = some v := by
  intro l
  induction l with
  | nil => intro d h; exact Or.inr h
  | cons a rest ih =>
    intro d h
    rcases ih (dictUpsert (key a) a d) h with h1 | h1
    · exact Or.inl ⟨List.mem_cons_of_mem _ h1.1, h1.2⟩
    · by_cases hk : key a = k
      · subst hk
        rw [dictGet?_upsert_self] at h1
        cases h1
        exact Or.inl ⟨List.mem_cons_self _ _, rfl⟩
      · rw [dictGet?_upsert_ne _ _ _ _ (fun h' => hk h'.symm)] at h1
        exact Or.inr h1

theorem buildDict_get_mem [DecidableEq κ] (key : α → κ) {k : κ} {v : α} {l : List α}
    (h : dictGet? k (buildDict key l) = some v) : v ∈ l ∧ key v = k := by
  rcases dictGet?_buildDict_mem key l [] h with h1 | h1
  · exact h1
  · simp [dictGet?] at h1

/-! Keys of a built dict contain the key of every input element. -/

theorem keys_upsert [DecidableEq κ] (k k' : κ) (v : α) (d : List (κ × α)) :
    k' ∈ (dictUpsert k v d).map Prod.fst ↔ k' ∈ d.map Prod.fst ∨ k' = k := by
  induction d with
  | nil => simp [dictUpsert]
  | cons e rest ih =>
    by_cases h : e.1 = k
    · subst h
      simp [dictUpsert]
      tauto
    · simp [dictUpsert, h, ih]
      tauto

theorem keys_foldl_mono [DecidableEq κ] (key : α → κ) (k : κ) :
    ∀ (l : List α) (d : List (κ × α)), k ∈ d.map Prod.fst →
      k ∈ (l.foldl (fun d a => dictUpsert (key a) a d) d).map Prod.fst := by
  intro l
  induction l with
  | nil => intro d h; exact h
  | cons a rest ih =>
    intro d h
    exact ih _ ((keys_upsert _ _ _ _).mpr (Or.inl h))

theorem keys_buildDictFold [DecidableEq κ] (key : α → κ) :
    ∀ (l : List α) (d : List (κ × α)) (a : α), a ∈ l →
      key a ∈ (l.foldl (fun d a => dictUpsert (key a) a d) d).map Prod.fst := by
  intro l
  induction l with
  | nil => intro d a h; simp at h
  | cons b rest ih =>
    intro d a h
    rcases List.mem_cons.mp h with h1 | h1
    · subst h1
      exact keys_foldl_mono key (key a) rest _
        ((keys_upsert _ _ _ _).mpr (Or.inr rfl))
    · exact ih _ a h1

theorem buildDict_keys_mem [DecidableEq κ] (key : α → κ) {l : List α} {a : α}
    (h : a ∈ l) : key a ∈ (buildDict key l).map Prod.fst :=
  keys_buildDictFold key l [] a h

theorem mem_setInsert (a k : String) (s : List String) :
    a ∈ setInsert s k ↔ a ∈ s ∨ a = k := by
  by_cases h : k ∈ s
  · simp [setInsert, h]
    intro ha
    subst ha
    exact h
  · simp [setInsert, h]

theorem mem_startRange {T d t : Nat} : t ∈ startRange T d ↔ t + d ≤ T := by
  unfold startRange
  by_cases h : d ≤ T
  · simp [h, List.mem_range]
    omega
  · simp [h]
    omega

theorem mem_candKeys (cfg : ScheduleConfig) (d : Nat) (t c : Nat) :
    (t, c) ∈ candKeys cfg d ↔ varExists cfg d t c = true := by
  unfold candKeys varExists courtRange
  simp only [List.mem_flatMap, List.mem_map, Prod.mk.injEq, List.mem_range'_1,
    Bool.and_eq_true, decide_eq_true_eq, mem_startRange]
  constructor
  · rintro ⟨t', ht', c', hc', het, hec⟩
    omega
  · intro h
    exact ⟨t, by omega, c, by omega, rfl, rfl⟩

theorem mem_foldl_setInsert (p : α → Bool) (f : α → String) :
    ∀ (l : List α) (s0 : List String) (k : String),
      k ∈ l.foldl (fun s x => if p x then setInsert s (f x) else s) s0 ↔
        k ∈ s0 ∨ ∃ x ∈ l, p x = true ∧ f x = k := by
  intro l
  induction l with
  | nil => intro s0 k; simp
  | cons a rest ih =>
    intro s0 k
    simp only [List.foldl_cons]
    rw [ih]
    by_cases hpa : p a
    · simp only [hpa, if_pos, mem_setInsert, List.exists_mem_cons_iff, true_and]
      constructor
      · rintro (⟨h | h⟩ | h)
        · exact Or.inl h
        · exact Or.inr (Or.inl h.symm)
        · exact Or.inr (Or.inr h)
      · rintro (h | h | h)
        · exact Or.inl (Or.inl h)
        · exact Or.inl (Or.inr h.symm)
        · exact Or.inr h
    · simp [hpa, List.exists_mem_cons_iff]

theorem mem_lockedFromList (pas : List PreviousAssignment) (k : String) :
    k ∈ lockedFromList pas ↔
      ∃ pa ∈ pas, pa.locked = true ∧ pa.match_id = k := by
  unfold lockedFromList
  rw [mem_foldl_setInsert (p := PreviousAssignment.locked)
    (f := PreviousAssignment.match_id) pas [] k]
  simp

theorem mem_greedyLocked (r : ScheduleRequest) (k : String) :
    k ∈ greedyLocked r ↔
      ∃ pa ∈ r.previous_assignments, pa.match_id = k ∧
        (pa.locked = true ∨
          pa.slot_id < r.config.current_slot + r.config.freeze_horizon_slots) := by
  unfold greedyLocked
  rw [mem_foldl_setInsert
    (p := fun pa => decide (pa.slot_id < r.config.current_slot + r.config.freeze_horizon_slots) && !pa.locked)
    (f := PreviousAssignment.match_id)]
  rw [show (r.previous_assignments.foldl
      (fun s pa => if pa.locked then setInsert s pa.match_id else s) []) =
      lockedFromList r.previous_assignments from rfl]
  rw [mem_lockedFromList]
  constructor
  · rintro (⟨pa, hmem, hl, hid⟩ | ⟨pa, hmem, hc, hid⟩)
    · exact ⟨pa, hmem, hid, Or.inl hl⟩
    · simp only [Bool.and_eq_true, Bool.not_eq_true', decide_eq_true_eq] at hc
      exact ⟨pa, hmem, hid, Or.inr hc.1⟩
  · rintro ⟨pa, hmem, hid, hl | hs⟩
    · exact Or.inl ⟨pa, hmem, hl, hid⟩
    · by_cases hk : pa.locked
      · exact Or.inl ⟨pa, hmem, hk, hid⟩
      · refine Or.inr ⟨pa, hmem, ?_, hid⟩
        simp only [Bool.and_eq_true, Bool.not_eq_true', decide_eq_true_eq]
        exact ⟨hs, by simpa using hk⟩

theorem mem_cpsatLockedSet (r : ScheduleRequest) (k : String) :
    k ∈ cpsatLockedSet r ↔
      (∃ pa ∈ r.previous_assignments, pa.locked = true ∧ pa.match_id = k) ∨
      (∃ e ∈ prevDict r, e.1 = k ∧
        frozenCond r.config (matchesDict r) e = true) := by
  unfold cpsatLockedSet addFrozen
  rw [mem_foldl_setInsert (p := frozenCond r.config (matchesDict r)) (f := Prod.fst)]
  rw [mem_lockedFromList]
  constructor
  · rintro (h | ⟨e, hmem, hc, hid⟩)
    · exact Or.inl h
    · exact Or.inr ⟨e, hmem, hid, hc⟩
  · rintro (h | ⟨e, hmem, hid, hc⟩)
    · exact Or.inl h
    · exact Or.inr ⟨e, hmem, hc, hid⟩

theorem candKeys_isEmpty (cfg : ScheduleConfig) (d : Nat) :
    (candKeys cfg d).isEmpty = true ↔
      (cfg.total_slots < d ∨ cfg.court_count = 0) := by
  rw [List.isEmpty_iff]
  constructor
  · intro h
    by_contra hc
    push_neg at hc
    have h1 : (0, 1) ∈ candKeys cfg d := by
      rw [mem_candKeys]
      unfold varExists
      simp only [Bool.and_eq_true, decide_eq_true_eq]
      omega
    rw [h] at h1
    simp at h1
  · intro h
    rcases List.eq_nil_or_concat (candKeys cfg d) with he | ⟨l, a, he⟩
    · exact he
    · exfalso
      have h1 : a ∈ candKeys cfg d := by rw [he]; simp
      rw [mem_candKeys] at h1
      unfold varExists at h1
      simp only [Bool.and_eq_true, decide_eq_true_eq] at h1
      omega

/-! ### List and extraction helper lemmas -/

theorem countP_zero_sum (p : Nat × Nat → Bool) :
    ∀ l : List (Nat × Nat), l.countP p = 0 →
      (l.map fun tc => if p tc then tc.1 else 0).sum = 0 := by
  intro l
  induction l with
  | nil => intro _; rfl
  | cons h t ih =>
    intro hc
    have hph : ¬ p h = true := by
      intro hp
      rw [List.countP_cons_of_pos _ _ hp] at hc
      omega
    rw [List.countP_cons_of_neg _ _ hph] at hc
    simp only [List.map_cons, List.sum_cons, if_neg hph, ih hc, Nat.zero_add]

theorem find?_unique (p : α → Bool) :
    ∀ (l : List α) (x : α), l.countP p = 1 → x ∈ l → p x = true →
      l.find? p = some x := by
  intro l
  induction l with
  | nil => intro x _ hx; simp at hx
  | cons h t ih =>
    intro x hc hx hpx
    by_cases hph : p h = true
    · rw [List.find?_cons_of_pos _ hph]
      rcases List.mem_cons.mp hx with he | ht
      · rw [he]
      · exfalso
        rw [List.countP_cons_of_pos _ _ hph] at hc
        have h0 : t.countP p = 0 := by omega
        exact (List.countP_eq_zero.mp h0 x ht) hpx
    · rw [List.find?_cons_of_neg _ hph]
      rcases List.mem_cons.mp hx with he | ht
      · rw [he] at hpx
        exact absurd hpx hph
      · rw [List.countP_cons_of_neg _ _ hph] at hc
        exact ih x hc ht hpx

theorem sum_if_of_unique (p : Nat × Nat → Bool) :
    ∀ (l : List (Nat × Nat)) (x : Nat × Nat),
      l.countP p = 1 → l.find? p = some x →
      (l.map fun tc => if p tc then tc.1 else 0).sum = x.1 := by
  intro l
  induction l with
  | nil => intro x _ hf; simp [List.find?] at hf
  | cons h t ih =>
    intro x hc hf
    by_cases hph : p h = true
    · rw [List.find?_cons_of_pos _ hph] at hf
      cases hf
      rw [List.countP_cons_of_pos _ _ hph] at hc
      have h0 : t.countP p = 0 := by omega
      simp only [List.map_cons, List.sum_cons, if_pos hph, countP_zero_sum p t h0]
      omega
    · rw [List.find?_cons_of_neg _ hph] at hf
      rw [List.countP_cons_of_neg _ _ hph] at hc
      simp only [List.map_cons, List.sum_cons, if_neg hph, ih x hc hf, Nat.zero_add]

theorem pairsOk_spec (P : α → α → Bool) :
    ∀ (l : List α) (a b : α), pairsOk P l = true → a ∈ l → b ∈ l → a ≠ b →
      P a b = true ∨ P b a = true := by
  intro l
  induction l with
  | nil => intro a b _ ha; simp at ha
  | cons x t ih =>
    intro a b hp ha hb hne
    simp only [pairsOk, Bool.and_eq_true] at hp
    rcases List.mem_cons.mp ha with hax | hat
    · rcases List.mem_cons.mp hb with hbx | hbt
      · exact absurd (hax.trans hbx.symm) hne
      · subst hax
        exact Or.inl (List.all_eq_true.mp hp.1 b hbt)
    · rcases List.mem_cons.mp hb with hbx | hbt
      · subst hbx
        exact Or.inr (List.all_eq_true.mp hp.1 a hat)
      · exact ih a b hp.2 hat hbt hne

theorem two_mem_lt_length (l : List α) (a b : α) (ha : a ∈ l) (hb : b ∈ l)
    (hne : a ≠ b) : 1 < l.length := by
  cases l with
  | nil => simp at ha
  | cons x t =>
    cases t with
    | nil =>
      simp at ha hb
      exact absurd (ha.trans hb.symm) hne
    | cons y t2 =>
      simp only [List.length_cons]
      omega

theorem upsert_key_inv [DecidableEq κ] (key : α → κ) (k : κ) (v : α)
    (hkv : key v = k) (d : List (κ × α)) (hd : ∀ e ∈ d, key e.2 = e.1) :
    ∀ e ∈ dictUpsert k v d, key e.2 = e.1 := by
  induction d with
  | nil =>
    intro e he
    simp [dictUpsert] at he
    rw [he]
    exact hkv
  | cons f rest ih =>
    intro e he
    by_cases hf : f.1 = k
    · simp only [dictUpsert, if_pos hf] at he
      rcases List.mem_cons.mp he with h1 | h1
      · rw [h1]
        exact hkv
      · exact hd e (List.mem_cons_of_mem _ h1)
    · simp only [dictUpsert, if_neg hf] at he
      rcases List.mem_cons.mp he with h1 | h1
      · rw [h1]
        exact hd f (List.mem_cons_self _ _)
      · exact ih (fun e' he' => hd e' (List.mem_cons_of_mem _ he')) e h1

/-- Every entry of a built dict is stored under its own key. -/
theorem buildDict_entry_key [DecidableEq κ] (key : α → κ) (l : List α) :
    ∀ e ∈ buildDict key l, key e.2 = e.1 := by
  suffices h : ∀ (l : List α) (d : List (κ × α)), (∀ e ∈ d, key e.2 = e.1) →
      ∀ e ∈ l.foldl (fun d a => dictUpsert (key a) a d) d, key e.2 = e.1 by
    exact h l [] (by intro e he; simp at he)
  intro l
  induction l with
  | nil => intro d hd; exact hd
  | cons a rest ih =>
    intro d hd
    exact ih _ (upsert_key_inv key (key a) a rfl d hd)

theorem extractOne_some_inv (cfg : ScheduleConfig)
    (prevD : List (String × PreviousAssignment)) (lockedSet : List String)
    (sol : String → Nat → Nat → Bool) (mid : String) (m : Match) (a : Assignment)
    (h : extractOne cfg prevD lockedSet sol mid m = some a) :
    (candKeys cfg m.duration_slots).find? (fun tc => sol mid tc.1 tc.2) =
      some (a.slot_id, a.court_id) ∧
    a.match_id = mid ∧ a.duration_slots = m.duration_slots := by
  unfold extractOne at h
  cases hf : (candKeys cfg m.duration_slots).find? (fun tc => sol mid tc.1 tc.2) with
  | none =>
    rw [hf] at h
    simp at h
  | some tc =>
    rw [hf] at h
    simp only [Option.some.injEq] at h
    rw [← h]
    exact ⟨rfl, rfl, rfl⟩

/-- When the solution pins a match to `(t, c)` and the match is in the
internal locked set, extraction reproduces exactly the pinned assignment
with `moved = false`. -/
theorem extractOne_pinned (cfg : ScheduleConfig)
    (prevD : List (String × PreviousAssignment)) (lockedSet : List String)
    (sol : String → Nat → Nat → Bool) (mid : String) (m : Match) (t c : Nat)
    (hvar : (t, c) ∈ candKeys cfg m.duration_slots)
    (hsol : sol mid t c = true)
    (hone : (candKeys cfg m.duration_slots).countP (fun tc => sol mid tc.1 tc.2) = 1)
    (hlock : mid ∈ lockedSet) :
    extractOne cfg prevD lockedSet sol mid m =
      some { match_id := mid, slot_id := t, court_id := c,
             duration_slots := m.duration_slots, moved := false,
             previous_slot_id := none, previous_court_id := none } := by
  have hfind : (candKeys cfg m.duration_slots).find? (fun tc => sol mid tc.1 tc.2) =
      some (t, c) :=
    find?_unique _ _ _ hone hvar (by simpa using hsol)
  unfold extractOne
  rw [hfind]
  cases hp : dictGet? mid prevD with
  | none => simp
  | some pa => simp [hlock]

/-- Any OPTIMAL/FEASIBLE result of `cpsatSolve` came from the
feasible-extraction branch: no build reasons, a feasible solver status,
and assignments produced by `extract_solution`. -/
theorem cpsatSolve_feasible_inv (r : ScheduleRequest) (st : CpStatus)
    (sol : String → Nat → Nat → Bool)
    (h : (cpsatSolve r st sol).status = SolverStatus.OPTIMAL ∨
         (cpsatSolve r st sol).status = SolverStatus.FEASIBLE) :
    buildReasons r = [] ∧ (st = CpStatus.optimal ∨ st = CpStatus.feasible) ∧
    (cpsatSolve r st sol).assignments =
      (extract_solution r.config (matchesDict r) (prevDict r)
        (cpsatLockedSet r) sol).1 := by
  by_cases hie : (buildReasons r).isEmpty = true
  · have he : buildReasons r = [] := List.isEmpty_iff.mp hie
    cases st with
    | optimal =>
      refine ⟨he, Or.inl rfl, ?_⟩
      unfold cpsatSolve
      simp [hie, extract_solution]
    | feasible =>
      refine ⟨he, Or.inr rfl, ?_⟩
      unfold cpsatSolve
      simp [hie, extract_solution]
    | infeasible =>
      exfalso
      have hs : (cpsatSolve r CpStatus.infeasible sol).status = SolverStatus.INFEASIBLE := by
        unfold cpsatSolve
        simp [hie]
        rfl
      rw [hs] at h
      rcases h with h | h <;> simp at h
    | unknown =>
      exfalso
      have hs : (cpsatSolve r CpStatus.unknown sol).status = SolverStatus.UNKNOWN := by
        unfold cpsatSolve
        simp [hie]
        rfl
      rw [hs] at h
      rcases h with h | h <;> simp at h
    | model_invalid =>
      exfalso
      have hs : (cpsatSolve r CpStatus.model_invalid sol).status = SolverStatus.MODEL_INVALID := by
        unfold cpsatSolve
        simp [hie]
        rfl
      rw [hs] at h
      rcases h with h | h <;> simp at h
  · exfalso
    have hie' : (buildReasons r).isEmpty = false := by
      cases hb : (buildReasons r).isEmpty
      · rfl
      · exact absurd hb hie
    have hs : (cpsatSolve r st sol).status = SolverStatus.INFEASIBLE := by
      unfold cpsatSolve
      simp [hie']
    rw [hs] at h
    rcases h with h | h <;> simp at h

/-! Field views of `greedySolve`. -/

theorem greedySolve_assignments (r : ScheduleRequest) :
    (greedySolve r).assignments =
      (r.«matches».map Match.id).filterMap
        (fun mid => dictGet? mid (greedyFinalSt r).assigned) := rfl

theorem greedySolve_unscheduled (r : ScheduleRequest) :
    (greedySolve r).unscheduled_matches =
      (r.«matches».map Match.id).filter
        (fun mid => (dictGet? mid (greedyFinalSt r).assigned).isNone) := rfl

theorem greedySolve_status (r : ScheduleRequest) :
    (greedySolve r).status =
      (if ((r.«matches».map Match.id).filter
          (fun mid => (dictGet? mid (greedyFinalSt r).assigned).isNone)).isEmpty
        then SolverStatus.FEASIBLE else SolverStatus.INFEASIBLE) := rfl

/-! ### Greedy loop lemmas -/

theorem placeMatch_get_self (st : GreedySt) (a : Assignment) :
    dictGet? a.match_id (placeMatch st a).assigned = some a :=
  dictGet?_upsert_self _ _ _

theorem placeMatch_get_ne (st : GreedySt) (a : Assignment) (mid : String)
    (h : mid ≠ a.match_id) :
    dictGet? mid (placeMatch st a).assigned = dictGet? mid st.assigned :=
  dictGet?_upsert_ne _ _ _ _ h

theorem isEmpty_false_of_mem {l : List α} {x : α} (h : x ∈ l) :
    l.isEmpty = false := by
  cases l with
  | nil => simp at h
  | cons a t => rfl

section GreedyC1

variable (cfg : ScheduleConfig) (matchesD : List (String × Match))
variable (prevD : List (String × PreviousAssignment)) (lockedSet : List String)
variable (mid : String) (pa : PreviousAssignment) (m : Match)

theorem lockBody_fires (hm : dictGet? mid matchesD = some m)
    (hp : dictGet? mid prevD = some pa) (hl : mid ∈ lockedSet)
    (hfit : pa.slot_id + m.duration_slots ≤ cfg.total_slots) (st : GreedySt) :
    lockBody cfg matchesD prevD lockedSet st mid =
      placeMatch st (lockedAsg mid pa m) := by
  unfold lockBody
  rw [hm, hp]
  dsimp only
  rw [if_pos]
  rw [Bool.and_eq_true]
  exact ⟨decide_eq_true hl, decide_eq_true hfit⟩

theorem lockBody_other_entry (h : String) (hne : h ≠ mid) (st : GreedySt) :
    dictGet? mid (lockBody cfg matchesD prevD lockedSet st h).assigned =
      dictGet? mid st.assigned := by
  unfold lockBody
  cases dictGet? h matchesD with
  | none => rfl
  | some m' =>
    cases dictGet? h prevD with
    | none => rfl
    | some prev =>
      dsimp only
      by_cases hc : (decide (h ∈ lockedSet) &&
          decide (prev.slot_id + m'.duration_slots ≤ cfg.total_slots)) = true
      · rw [if_pos hc]
        exact placeMatch_get_ne _ _ _ (fun he => hne (he.symm))
      · rw [if_neg hc]

theorem lockPhase_preserves (hm : dictGet? mid matchesD = some m)
    (hp : dictGet? mid prevD = some pa) (hl : mid ∈ lockedSet)
    (hfit : pa.slot_id + m.duration_slots ≤ cfg.total_slots) :
    ∀ (order : List String) (st : GreedySt),
      dictGet? mid st.assigned = some (lockedAsg mid pa m) →
      dictGet? mid (greedyLockPhase cfg matchesD prevD lockedSet order st).assigned =
        some (lockedAsg mid pa m) := by
  intro order
  induction order with
  | nil => intro st h; exact h
  | cons h t ih =>
    intro st hst
    by_cases he : h = mid
    · subst he
      apply ih
      rw [lockBody_fires cfg matchesD prevD lockedSet h pa m hm hp hl hfit st]
      exact placeMatch_get_self st (lockedAsg h pa m)
    · apply ih
      rw [lockBody_other_entry cfg matchesD prevD lockedSet mid h he st]
      exact hst

theorem lockPhase_sets (hm : dictGet? mid matchesD = some m)
    (hp : dictGet? mid prevD = some pa) (hl : mid ∈ lockedSet)
    (hfit : pa.slot_id + m.duration_slots ≤ cfg.total_slots) :
    ∀ (order : List String) (st : GreedySt), mid ∈ order →
      dictGet? mid (greedyLockPhase cfg matchesD prevD lockedSet order st).assigned =
        some (lockedAsg mid pa m) := by
  intro order
  induction order with
  | nil => intro st h; simp at h
  | cons h t ih =>
    intro st hmem
    by_cases he : h = mid
    · subst he
      apply lockPhase_preserves cfg matchesD prevD lockedSet h pa m hm hp hl hfit t
      rw [lockBody_fires cfg matchesD prevD lockedSet h pa m hm hp hl hfit st]
      exact placeMatch_get_self st (lockedAsg h pa m)
    · rcases List.mem_cons.mp hmem with h1 | h1
      · exact absurd h1.symm he
      · exact ih _ h1

end GreedyC1

theorem placeBody_preserves_entry (cfg : ScheduleConfig)
    (matchesD : List (String × Match)) (playersD : List (String × Player))
    (prevD : List (String × PreviousAssignment)) (mid : String) (a0 : Assignment)
    (h : String) (st : GreedySt)
    (hst : dictGet? mid st.assigned = some a0) :
    dictGet? mid (placeBody cfg matchesD playersD prevD st h).assigned = some a0 := by
  unfold placeBody
  by_cases hs : (dictGet? h st.assigned).isSome = true
  · rw [if_pos hs]
    exact hst
  · rw [if_neg hs]
    have hne : mid ≠ h := by
      intro he
      subst he
      rw [hst] at hs
      simp at hs
    cases dictGet? h matchesD with
    | none => exact hst
    | some m' =>
      dsimp only
      cases findPlacement cfg matchesD playersD st m' with
      | none => exact hst
      | some tc =>
        dsimp only
        rw [placeMatch_get_ne _ _ _ (fun he => hne he)]
        by_cases hmov : (match dictGet? h prevD with
            | some pa => decide (pa.slot_id ≠ tc.1) || decide (pa.court_id ≠ tc.2)
            | none => false) = true
        · rw [if_pos hmov]
          exact hst
        · rw [if_neg hmov]
          exact hst

theorem placePhase_preserves (cfg : ScheduleConfig)
    (matchesD : List (String × Match)) (playersD : List (String × Player))
    (prevD : List (String × PreviousAssignment)) (mid : String) (a : Assignment) :
    ∀ (order : List String) (st : GreedySt),
      dictGet? mid st.assigned = some a →
      dictGet? mid (greedyPlacePhase cfg matchesD playersD prevD order st).assigned =
        some a := by
  intro order
  induction order with
  | nil => intro st h; exact h
  | cons h t ih =>
    intro st hst
    exact ih _ (placeBody_preserves_entry cfg matchesD playersD prevD mid a h st hst)

/-! ### CP-SAT lock/freeze support lemmas -/

/-- With no recorded build reasons, every locked previous assignment of a
known match has an existing variable (else a lock reason would have been
recorded). -/
theorem lockReason_varExists (r : ScheduleRequest) (mid : String)
    (pa : PreviousAssignment) (m : Match)
    (hp : dictGet? mid (prevDict r) = some pa)
    (hm : dictGet? mid (matchesDict r) = some m)
    (hl : pa.locked = true) (hre : buildReasons r = []) :
    varExists r.config m.duration_slots pa.slot_id pa.court_id = true := by
  have h2 : lockReasons r.config (matchesDict r) (prevDict r) = [] :=
    (List.append_eq_nil.mp hre).2
  unfold lockReasons at h2
  have h3 := List.filterMap_eq_nil_iff.mp h2 (mid, pa) (dictGet?_mem hp)
  rw [show dictGet? (mid, pa).1 (matchesDict r) = some m from hm] at h3
  dsimp only at h3
  cases hv : varExists r.config m.duration_slots pa.slot_id pa.court_id
  · rw [hl, hv] at h3
    simp at h3
  · rfl

/-- A satisfied lock-pin family sets the pinned variable of every locked
previous assignment (of a known match, when the variable exists). -/
theorem sol_pinned_of_locked (r : ScheduleRequest)
    (sol : String → Nat → Nat → Bool) (mid : String)
    (pa : PreviousAssignment) (m : Match)
    (hp : dictGet? mid (prevDict r) = some pa)
    (hm : dictGet? mid (matchesDict r) = some m)
    (hl : pa.locked = true)
    (hv : varExists r.config m.duration_slots pa.slot_id pa.court_id = true)
    (hlp : lockPinsOk r.config (matchesDict r) (prevDict r) sol = true) :
    sol mid pa.slot_id pa.court_id = true := by
  have hall := List.all_eq_true.mp hlp (mid, pa) (dictGet?_mem hp)
  rw [show dictGet? (mid, pa).1 (matchesDict r) = some m from hm] at hall
  dsimp only at hall
  rw [hl] at hall
  rw [if_pos rfl] at hall
  rw [hv] at hall
  simpa using hall

/-- A satisfied freeze-pin family sets the pinned variable of every
non-locked previous assignment inside the (unbounded-below) freeze
window whose variable exists. -/
theorem sol_pinned_of_frozen (r : ScheduleRequest)
    (sol : String → Nat → Nat → Bool) (mid : String)
    (pa : PreviousAssignment) (m : Match)
    (hp : dictGet? mid (prevDict r) = some pa)
    (hm : dictGet? mid (matchesDict r) = some m)
    (hl : pa.locked = false)
    (hw : pa.slot_id < r.config.current_slot + r.config.freeze_horizon_slots)
    (hv : varExists r.config m.duration_slots pa.slot_id pa.court_id = true)
    (hfp : freezePinsOk r.config (matchesDict r) (prevDict r) sol = true) :
    sol mid pa.slot_id pa.court_id = true := by
  have hall := List.all_eq_true.mp hfp (mid, pa) (dictGet?_mem hp)
  rw [show dictGet? (mid, pa).1 (matchesDict r) = some m from hm] at hall
  dsimp only at hall
  rw [hl] at hall
  rw [if_neg (by simp)] at hall
  rw [if_pos hw] at hall
  rw [hv] at hall
  simpa using hall

/-- Exactly-once satisfaction plus a non-empty candidate set give a
variable count of exactly one for the match. -/
theorem countP_one_of_sat (cfg : ScheduleConfig)
    (matchesD : List (String × Match)) (sol : String → Nat → Nat → Bool)
    (e : String × Match) (he : e ∈ matchesD)
    (hsat : exactlyOnceOk cfg matchesD sol = true)
    (hne : (candKeys cfg e.2.duration_slots).isEmpty = false) :
    (candKeys cfg e.2.duration_slots).countP (fun tc => sol e.1 tc.1 tc.2) = 1 := by
  have hall := List.all_eq_true.mp hsat e he
  rw [Bool.or_eq_true] at hall
  rcases hall with h | h
  · rw [hne] at h
    simp at h
  · exact beq_iff_eq.mp h

/-! ### Dict key uniqueness -/

theorem keys_upsert_eq_of_mem [DecidableEq κ] (k : κ) (v : α) (d : List (κ × α))
    (h : k ∈ d.map Prod.fst) :
    (dictUpsert k v d).map Prod.fst = d.map Prod.fst := by
  induction d with
  | nil => simp at h
  | cons e rest ih =>
    by_cases he : e.1 = k
    · simp [dictUpsert, he]
    · have h2 : k ∈ rest.map Prod.fst := by
        simp only [List.map_cons, List.mem_cons] at h
        rcases h with h | h
        · exact absurd h.symm he
        · exact h
      simp [dictUpsert, he, ih h2]

theorem keys_upsert_eq_of_not_mem [DecidableEq κ] (k : κ) (v : α) (d : List (κ × α))
    (h : k ∉ d.map Prod.fst) :
    (dictUpsert k v d).map Prod.fst = d.map Prod.fst ++ [k] := by
  induction d with
  | nil => rfl
  | cons e rest ih =>
    have he : ¬ e.1 = k := by
      intro he
      exact h (by simp [he])
    have h2 : k ∉ rest.map Prod.fst := by
      intro h2
      exact h (by simp [h2])
    simp [dictUpsert, he, ih h2]

theorem upsert_keys_nodup [DecidableEq κ] (k : κ) (v : α) (d : List (κ × α))
    (h : (d.map Prod.fst).Nodup) : ((dictUpsert k v d).map Prod.fst).Nodup := by
  by_cases hm : k ∈ d.map Prod.fst
  · rw [keys_upsert_eq_of_mem k v d hm]
    exact h
  · rw [keys_upsert_eq_of_not_mem k v d hm]
    rw [List.nodup_append]
    exact ⟨h, List.nodup_singleton k, by
      intro x hx hk
      simp at hk
      subst hk
      exact hm hx⟩

theorem buildDict_keys_nodup [DecidableEq κ] (key : α → κ) (l : List α) :
    ((buildDict key l).map Prod.fst).Nodup := by
  suffices h : ∀ (l : List α) (d : List (κ × α)), (d.map Prod.fst).Nodup →
      ((l.foldl (fun d a => dictUpsert (key a) a d) d).map Prod.fst).Nodup by
    exact h l [] (by simp)
  intro l
  induction l with
  | nil => intro d hd; exact hd
  | cons a rest ih =>
    intro d hd
    exact ih _ (upsert_keys_nodup (key a) a d hd)

theorem dictGet?_of_mem_nodup [DecidableEq κ] {d : List (κ × α)}
    (hnd : (d.map Prod.fst).Nodup) {k : κ} {v : α} (hmem : (k, v) ∈ d) :
    dictGet? k d = some v := by
  induction d with
  | nil => simp at hmem
  | cons e rest ih =>
    rcases List.mem_cons.mp hmem with he | hrest
    · rw [← he]
      simp [dictGet?]
    · by_cases hek : e.1 = k
      · exfalso
        simp only [List.map_cons, List.nodup_cons] at hnd
        apply hnd.1
        rw [hek]
        exact List.mem_map_of_mem Prod.fst hrest
      · simp only [dictGet?, if_neg hek]
        simp only [List.map_cons, List.nodup_cons] at hnd
        exact ih hnd.2 hrest

/-! ### Player-bucket lemmas (`player_matches` grouping) -/

theorem dictAppend_get_self [DecidableEq κ] (k : κ) (v : α) (d : List (κ × List α)) :
    dictGet? k (dictAppend k v d) = some ((dictGet? k d).getD [] ++ [v]) := by
  induction d with
  | nil => simp [dictAppend, dictGet?]
  | cons e rest ih =>
    by_cases he : e.1 = k
    · subst he
      simp [dictAppend, dictGet?]
    · simp [dictAppend, dictGet?, he, ih]

theorem dictAppend_get_ne [DecidableEq κ] (k k' : κ) (v : α) (d : List (κ × List α))
    (h : k' ≠ k) : dictGet? k' (dictAppend k v d) = dictGet? k' d := by
  induction d with
  | nil =>
    simp only [dictAppend, dictGet?]
    rw [if_neg (fun h' => h h'.symm)]
  | cons e rest ih =>
    by_cases he : e.1 = k
    · subst he
      simp only [dictAppend, if_pos rfl, dictGet?]
      rw [if_neg (fun h' => h h'.symm), if_neg (fun h' => h h'.symm)]
    · simp only [dictAppend, if_neg he, dictGet?, ih]

theorem mem_bucket_append [DecidableEq κ] (p k : κ) (v : α)
    (d : List (κ × List α)) (x : α)
    (hx : x ∈ (dictGet? p d).getD []) :
    x ∈ (dictGet? p (dictAppend k v d)).getD [] := by
  by_cases hp : p = k
  · subst hp
    rw [dictAppend_get_self]
    simp only [Option.getD_some]
    exact List.mem_append_left _ hx
  · rw [dictAppend_get_ne _ _ _ _ hp]
    exact hx

theorem self_bucket_append [DecidableEq κ] (p : κ) (v : α) (d : List (κ × List α)) :
    v ∈ (dictGet? p (dictAppend p v d)).getD [] := by
  rw [dictAppend_get_self]
  simp

theorem inner_bucket_mono (m x : Match) (p : String) :
    ∀ (pids : List String) (d : List (String × List Match)),
      x ∈ (dictGet? p d).getD [] →
      x ∈ (dictGet? p (pids.foldl (fun d pid => dictAppend pid m d) d)).getD [] := by
  intro pids
  induction pids with
  | nil => intro d h; exact h
  | cons q rest ih =>
    intro d h
    exact ih _ (mem_bucket_append p q m d x h)

theorem inner_bucket_adds (m : Match) (p : String) :
    ∀ (pids : List String) (d : List (String × List Match)), p ∈ pids →
      m ∈ (dictGet? p (pids.foldl (fun d pid => dictAppend pid m d) d)).getD [] := by
  intro pids
  induction pids with
  | nil => intro d h; simp at h
  | cons q rest ih =>
    intro d hmem
    by_cases hq : q = p
    · subst hq
      exact inner_bucket_mono m m q rest _ (self_bucket_append q m d)
    · rcases List.mem_cons.mp hmem with h | h
      · exact absurd h.symm hq
      · exact ih _ h

theorem outer_bucket_mono (x : Match) (p : String) :
    ∀ (entries : List (String × Match)) (d : List (String × List Match)),
      x ∈ (dictGet? p d).getD [] →
      x ∈ (dictGet? p (entries.foldl
        (fun d e => (playerIdsU e.2).foldl (fun d pid => dictAppend pid e.2 d) d)
        d)).getD [] := by
  intro entries
  induction entries with
  | nil => intro d h; exact h
  | cons e rest ih =>
    intro d h
    exact ih _ (inner_bucket_mono e.2 x p (playerIdsU e.2) d h)

theorem playerMatchesOf_adds (p : String) :
    ∀ (entries : List (String × Match)) (d : List (String × List Match))
      (e : String × Match), e ∈ entries → p ∈ playerIdsU e.2 →
      e.2 ∈ (dictGet? p (entries.foldl
        (fun d e => (playerIdsU e.2).foldl (fun d pid => dictAppend pid e.2 d) d)
        d)).getD [] := by
  intro entries
  induction entries with
  | nil => intro d e h; simp at h
  | cons a rest ih =>
    intro d e hmem hp
    rcases List.mem_cons.mp hmem with h | h
    · subst h
      exact outer_bucket_mono e.2 p rest _
        (inner_bucket_adds e.2 p (playerIdsU e.2) d hp)
    · exact ih _ e h hp

theorem mem_playerMatchesOf (matchesD : List (String × Match))
    (e : String × Match) (p : String) (he : e ∈ matchesD)
    (hp : p ∈ playerIdsU e.2) :
    ∃ ms, dictGet? p (playerMatchesOf matchesD) = some ms ∧ e.2 ∈ ms := by
  have h := playerMatchesOf_adds p matchesD [] e he hp
  unfold playerMatchesOf
  cases hg : dictGet? p (matchesD.foldl
      (fun d e => (playerIdsU e.2).foldl (fun d pid => dictAppend pid e.2 d) d) []) with
  | none =>
    exfalso
    unfold playerMatchesOf at *
    rw [hg] at h
    simp at h
  | some ms =>
    refine ⟨ms, rfl, ?_⟩
    rw [hg] at h
    simpa using h

/-! ### Pin-erasure congruence (the greedy backend never reads pins) -/

theorem dictGet?_map_erase (k : String) (d : List (String × PreviousAssignment)) :
    dictGet? k (d.map (fun e => (e.1, erasePA e.2))) =
      (dictGet? k d).map erasePA := by
  induction d with
  | nil => rfl
  | cons e rest ih =>
    by_cases he : e.1 = k
    · simp [dictGet?, he]
    · simp [dictGet?, he, ih]

theorem upsert_map_erase (k : String) (pa : PreviousAssignment)
    (d : List (String × PreviousAssignment)) :
    dictUpsert k (erasePA pa) (d.map (fun e => (e.1, erasePA e.2))) =
      (dictUpsert k pa d).map (fun e => (e.1, erasePA e.2)) := by
  induction d with
  | nil => rfl
  | cons e rest ih =>
    by_cases he : e.1 = k
    · simp [dictUpsert, he]
    · simp [dictUpsert, he, ih]

theorem prevDict_erase (pas : List PreviousAssignment) :
    buildDict PreviousAssignment.match_id (pas.map erasePA) =
      (buildDict PreviousAssignment.match_id pas).map
        (fun e => (e.1, erasePA e.2)) := by
  suffices h : ∀ (pas : List PreviousAssignment)
      (d : List (String × PreviousAssignment)),
      (pas.map erasePA).foldl
        (fun d pa => dictUpsert pa.match_id pa d)
        (d.map (fun e => (e.1, erasePA e.2))) =
      (pas.foldl (fun d pa => dictUpsert pa.match_id pa d) d).map
        (fun e => (e.1, erasePA e.2)) by
    exact h pas []
  intro pas
  induction pas with
  | nil => intro d; rfl
  | cons pa rest ih =>
    intro d
    simp only [List.map_cons, List.foldl_cons]
    rw [show dictUpsert (erasePA pa).match_id (erasePA pa)
        (d.map (fun e => (e.1, erasePA e.2))) =
        (dictUpsert pa.match_id pa d).map (fun e => (e.1, erasePA e.2)) from
      upsert_map_erase pa.match_id pa d]
    exact ih _

theorem greedyLocked_erase (r : ScheduleRequest) :
    greedyLocked
        { r with previous_assignments := r.previous_assignments.map erasePA } =
      greedyLocked r := by
  unfold greedyLocked
  simp only [List.foldl_map]
  rfl

theorem lockBody_erase (cfg : ScheduleConfig) (matchesD : List (String × Match))
    (prevD : List (String × PreviousAssignment)) (ls : List String)
    (st : GreedySt) (mid : String) :
    lockBody cfg matchesD (prevD.map (fun e => (e.1, erasePA e.2))) ls st mid =
      lockBody cfg matchesD prevD ls st mid := by
  unfold lockBody
  rw [dictGet?_map_erase]
  cases dictGet? mid matchesD with
  | none => rfl
  | some m =>
    cases dictGet? mid prevD with
    | none => rfl
    | some pa => rfl

theorem placeBody_erase (cfg : ScheduleConfig) (matchesD : List (String × Match))
    (playersD : List (String × Player))
    (prevD : List (String × PreviousAssignment)) (st : GreedySt) (mid : String) :
    placeBody cfg matchesD playersD (prevD.map (fun e => (e.1, erasePA e.2))) st mid =
      placeBody cfg matchesD playersD prevD st mid := by
  unfold placeBody
  rw [dictGet?_map_erase]
  cases dictGet? mid matchesD with
  | none => rfl
  | some m =>
    cases dictGet? mid prevD with
    | none => rfl
    | some pa => rfl

theorem lockPhase_erase (cfg : ScheduleConfig) (matchesD : List (String × Match))
    (prevD : List (String × PreviousAssignment)) (ls : List String)
    (order : List String) (st : GreedySt) :
    greedyLockPhase cfg matchesD (prevD.map (fun e => (e.1, erasePA e.2))) ls
        order st =
      greedyLockPhase cfg matchesD prevD ls order st := by
  unfold greedyLockPhase
  rw [show lockBody cfg matchesD (prevD.map (fun e => (e.1, erasePA e.2))) ls =
      lockBody cfg matchesD prevD ls from
    funext fun st => funext fun mid => lockBody_erase cfg matchesD prevD ls st mid]

theorem placePhase_erase (cfg : ScheduleConfig) (matchesD : List (String × Match))
    (playersD : List (String × Player))
    (prevD : List (String × PreviousAssignment))
    (order : List String) (st : GreedySt) :
    greedyPlacePhase cfg matchesD playersD
        (prevD.map (fun e => (e.1, erasePA e.2))) order st =
      greedyPlacePhase cfg matchesD playersD prevD order st := by
  unfold greedyPlacePhase
  rw [show placeBody cfg matchesD playersD (prevD.map (fun e => (e.1, erasePA e.2))) =
      placeBody cfg matchesD playersD prevD from
    funext fun st => funext fun mid =>
      placeBody_erase cfg matchesD playersD prevD st mid]

theorem matchesDict_set_prev (r : ScheduleRequest) (pas : List PreviousAssignment) :
    matchesDict { r with previous_assignments := pas } = matchesDict r := rfl

theorem playersDict_set_prev (r : ScheduleRequest) (pas : List PreviousAssignment) :
    playersDict { r with previous_assignments := pas } = playersDict r := rfl

/-- The greedy backend never reads the pin fields: erasing them leaves
the whole result unchanged. -/
theorem greedySolve_erase (r : ScheduleRequest) :
    greedySolve
        { r with previous_assignments := r.previous_assignments.map erasePA } =
      greedySolve r := by
  have hprev : prevDict
      { r with previous_assignments := r.previous_assignments.map erasePA } =
      (prevDict r).map (fun e => (e.1, erasePA e.2)) :=
    prevDict_erase r.previous_assignments
  have hlock := greedyLocked_erase r
  have hfin : greedyFinalSt
      { r with previous_assignments := r.previous_assignments.map erasePA } =
      greedyFinalSt r := by
    unfold greedyFinalSt
    dsimp only
    rw [matchesDict_set_prev, playersDict_set_prev, hprev, hlock]
    rw [lockPhase_erase, placePhase_erase]
  unfold greedySolve
  dsimp only
  rw [hfin, hlock]

/-! ## Claim theorems -/

/-! ### C9 — frame property of `apply_freeze_horizon` -/

/-- Claim C9: `apply_freeze_horizon` touches only the `locked` flag, and
only for assignments with `current_slot ≤ slot_id < current_slot +
freeze_horizon_slots`; those are set to `true`, all other fields and all
other assignments are unchanged, and a `locked = true` flag is never
cleared (the output flag is the old flag OR-ed with the window test). -/
theorem apply_freeze_horizon_frame (st : List (String × TournamentAssignment))
    (cfg : ScheduleConfig) :
    List.Forall₂ (fun old new =>
      new.1 = old.1 ∧
      new.2.play_unit_id = old.2.play_unit_id ∧
      new.2.slot_id = old.2.slot_id ∧
      new.2.court_id = old.2.court_id ∧
      new.2.duration_slots = old.2.duration_slots ∧
      new.2.pinned_slot_id = old.2.pinned_slot_id ∧
      new.2.pinned_court_id = old.2.pinned_court_id ∧
      new.2.actual_start_slot = old.2.actual_start_slot ∧
      new.2.actual_end_slot = old.2.actual_end_slot ∧
      new.2.locked = (old.2.locked ||
        (decide (cfg.current_slot ≤ old.2.slot_id) &&
         decide (old.2.slot_id < cfg.current_slot + cfg.freeze_horizon_slots))))
      st (apply_freeze_horizon st cfg) := by
  induction st with
  | nil => exact List.Forall₂.nil
  | cons e rest ih =>
    refine List.Forall₂.cons ?_ ih
    beta_reduce
    by_cases h : cfg.current_slot ≤ e.2.slot_id ∧
        e.2.slot_id < cfg.current_slot + cfg.freeze_horizon_slots
    · rw [if_pos h]
      refine ⟨rfl, rfl, rfl, rfl, rfl, rfl, rfl, rfl, rfl, ?_⟩
      have : (decide (cfg.current_slot ≤ e.2.slot_id) &&
          decide (e.2.slot_id < cfg.current_slot + cfg.freeze_horizon_slots)) = true := by
        rw [← Bool.decide_and]
        exact decide_eq_true h
      rw [this, Bool.or_true]
    · rw [if_neg h]
      refine ⟨rfl, rfl, rfl, rfl, rfl, rfl, rfl, rfl, rfl, ?_⟩
      have : (decide (cfg.current_slot ≤ e.2.slot_id) &&
          decide (e.2.slot_id < cfg.current_slot + cfg.freeze_horizon_slots)) = false := by
        rw [← Bool.decide_and]
        exact decide_eq_false h
      rw [this, Bool.or_false]

/-! ### C4 — `handle_court_outage` -/

theorem courtRange_toFinset (C : Nat) : (courtRange C).toFinset = Finset.Icc 1 C := by
  ext x
  simp only [courtRange, List.mem_toFinset, List.mem_range'_1, Finset.mem_Icc]
  omega

theorem filter_courtRange_card (C : Nat) (excluded : List Nat) :
    ((courtRange C).filter (fun c => decide (c ∉ excluded))).length =
      ((Finset.Icc 1 C) \ excluded.toFinset).card := by
  have hnd : (courtRange C).Nodup := List.nodup_range' 1 C
  calc ((courtRange C).filter (fun c => decide (c ∉ excluded))).length
      = ((courtRange C).filter (fun c => decide (c ∉ excluded))).toFinset.card := by
        rw [List.toFinset_card_of_nodup (hnd.filter _)]
    _ = ((Finset.Icc 1 C) \ excluded.toFinset).card := by
        rw [List.toFinset_filter, courtRange_toFinset]
        congr 1
        rw [Finset.sdiff_eq_filter]
        apply Finset.filter_congr
        intro x _
        simp

/-- Claim C4 counterexample: with two courts, proximity enabled, and both
courts excluded, the remaining-court cardinality is 0 but the returned
config has `court_count = 1`, and `enable_game_proximity` is reset to its
default `false` rather than preserved. -/
theorem handle_court_outage_cex :
    (handle_court_outage cfgOutage [1, 2]).court_count = 1 ∧
    ((Finset.Icc 1 cfgOutage.court_count) \ ([1, 2] : List Nat).toFinset).card = 0 ∧
    cfgOutage.enable_game_proximity = true ∧
    (handle_court_outage cfgOutage [1, 2]).enable_game_proximity = false := by
  refine ⟨by decide, by decide, rfl, by decide⟩

/-- Claim C4, amended: `handle_court_outage` returns `court_count =
max 1 |{1..court_count} \ excluded|`; it preserves `total_slots`,
`interval_minutes`, `default_rest_slots`, `freeze_horizon_slots`,
`current_slot`, `soft_rest_enabled`, `rest_slack_penalty`,
`disruption_penalty`, `late_finish_penalty` and `court_change_penalty`,
and resets every remaining field to its dataclass default; with no
excluded court and at least one court, `court_count` is preserved. -/
theorem handle_court_outage_amended (cfg : ScheduleConfig) (excluded : List Nat)
    (hc : 1 ≤ cfg.court_count) :
    (handle_court_outage cfg excluded).court_count =
      max 1 ((Finset.Icc 1 cfg.court_count) \ excluded.toFinset).card ∧
    (handle_court_outage cfg excluded).total_slots = cfg.total_slots ∧
    (handle_court_outage cfg excluded).interval_minutes = cfg.interval_minutes ∧
    (handle_court_outage cfg excluded).default_rest_slots = cfg.default_rest_slots ∧
    (handle_court_outage cfg excluded).freeze_horizon_slots = cfg.freeze_horizon_slots ∧
    (handle_court_outage cfg excluded).current_slot = cfg.current_slot ∧
    (handle_court_outage cfg excluded).soft_rest_enabled = cfg.soft_rest_enabled ∧
    (handle_court_outage cfg excluded).rest_slack_penalty = cfg.rest_slack_penalty ∧
    (handle_court_outage cfg excluded).disruption_penalty = cfg.disruption_penalty ∧
    (handle_court_outage cfg excluded).late_finish_penalty = cfg.late_finish_penalty ∧
    (handle_court_outage cfg excluded).court_change_penalty = cfg.court_change_penalty ∧
    (handle_court_outage cfg excluded).enable_court_utilization = true ∧
    (handle_court_outage cfg excluded).court_utilization_penalty = 50 ∧
    (handle_court_outage cfg excluded).enable_game_proximity = false ∧
    (handle_court_outage cfg excluded).min_game_spacing_slots = none ∧
    (handle_court_outage cfg excluded).max_game_spacing_slots = none ∧
    (handle_court_outage cfg excluded).game_proximity_penalty = 5 ∧
    (handle_court_outage cfg excluded).enable_compact_schedule = false ∧
    (handle_court_outage cfg excluded).compact_schedule_mode = "minimize_makespan" ∧
    (handle_court_outage cfg excluded).compact_schedule_penalty = 100 ∧
    (handle_court_outage cfg excluded).target_finish_slot = none ∧
    (handle_court_outage cfg excluded).allow_player_overlap = false ∧
    (handle_court_outage cfg excluded).player_overlap_penalty = 50 ∧
    (excluded = [] → (handle_court_outage cfg excluded).court_count = cfg.court_count) := by
  refine ⟨?_, rfl, rfl, rfl, rfl, rfl, rfl, rfl, rfl, rfl, rfl, rfl, rfl, rfl,
    rfl, rfl, rfl, rfl, rfl, rfl, rfl, rfl, rfl, ?_⟩
  · show max 1 ((courtRange cfg.court_count).filter
        (fun c => decide (c ∉ excluded))).length = _
    rw [filter_courtRange_card]
  · intro he
    subst he
    show max 1 ((courtRange cfg.court_count).filter
        (fun c => decide (c ∉ ([] : List Nat)))).length = _
    have : ((courtRange cfg.court_count).filter
        (fun c => decide (c ∉ ([] : List Nat)))) = courtRange cfg.court_count := by
      apply List.filter_eq_self.mpr
      intro a _
      simp
    rw [this]
    simp only [courtRange, List.length_range']
    omega

/-- Witness for `handle_court_outage_amended` at a concrete config. -/
theorem handle_court_outage_witness :
    (handle_court_outage cfgOutage [2]).court_count =
      max 1 ((Finset.Icc 1 cfgOutage.court_count) \ ([2] : List Nat).toFinset).card ∧
    (handle_court_outage cfgOutage []).court_count = cfgOutage.court_count := by
  have h1 := handle_court_outage_amended cfgOutage [2] (by decide)
  exact ⟨h1.1, by decide⟩

/-! ### C7 — objective weight scaling -/

theorem intTrunc_nonneg (q : ℚ) (h : 0 ≤ q) : intTrunc q = Int.floor q := by
  unfold intTrunc
  rw [if_neg (not_lt.mpr h)]

/-- Claim C7 counterexample: with `disruption_penalty = 0.15`, the code's
coefficient `int(0.15 * 10) = 1` differs from `round(10 · 0.15) = 2`. -/
theorem objective_scaling_cex :
    disruptionCoeff cfgTrunc = 1 ∧
    round (cfgTrunc.disruption_penalty * 10) = (2 : ℤ) ∧
    disruptionCoeff cfgTrunc ≠ round (cfgTrunc.disruption_penalty * 10) := by
  have hq : cfgTrunc.disruption_penalty * 10 = (3:ℚ)/2 := by
    norm_num [cfgTrunc]
  have ha : disruptionCoeff cfgTrunc = 1 := by
    show intTrunc (cfgTrunc.disruption_penalty * 10) = 1
    rw [hq, intTrunc_nonneg _ (by norm_num)]
    rw [Int.floor_eq_iff]
    constructor <;> norm_num
  have hb : round (cfgTrunc.disruption_penalty * 10) = (2:ℤ) := by
    rw [hq, round_eq, show (3:ℚ)/2 + 1/2 = 2 by norm_num]
    rw [Int.floor_eq_iff]
    constructor <;> norm_num
  refine ⟨ha, hb, ?_⟩
  rw [ha, hb]
  decide

/-- Claim C7, amended: every penalty weight enters the objective as
`int(w · 10)` — truncation, which on the non-negative weights equals
`⌊10 · w⌋`, not rounding.  The rest-slack coefficient uses the player's
`rest_penalty` when a player record exists, else the config's
`rest_slack_penalty`. -/
theorem objective_scaling_amended (cfg : ScheduleConfig)
    (playersD : List (String × Player)) (pid : String)
    (h1 : 0 ≤ cfg.court_utilization_penalty)
    (h2 : 0 ≤ cfg.game_proximity_penalty)
    (h3 : 0 ≤ cfg.disruption_penalty)
    (h4 : 0 ≤ cfg.court_change_penalty)
    (h5 : 0 ≤ cfg.late_finish_penalty)
    (h6 : 0 ≤ cfg.compact_schedule_penalty)
    (h7 : 0 ≤ cfg.player_overlap_penalty)
    (h8 : 0 ≤ cfg.rest_slack_penalty)
    (h9 : ∀ e ∈ playersD, 0 ≤ e.2.rest_penalty) :
    courtUtilCoeff cfg = Int.floor (cfg.court_utilization_penalty * 10) ∧
    proximityCoeff cfg = Int.floor (cfg.game_proximity_penalty * 10) ∧
    disruptionCoeff cfg = Int.floor (cfg.disruption_penalty * 10) ∧
    courtChangeCoeff cfg = Int.floor (cfg.court_change_penalty * 10) ∧
    lateFinishCoeff cfg = Int.floor (cfg.late_finish_penalty * 10) ∧
    compactCoeff cfg = Int.floor (cfg.compact_schedule_penalty * 10) ∧
    overlapCoeff cfg = Int.floor (cfg.player_overlap_penalty * 10) ∧
    restSlackCoeff playersD cfg pid =
      Int.floor ((match dictGet? pid playersD with
        | some p => p.rest_penalty
        | none => cfg.rest_slack_penalty) * 10) := by
  have ten : (0:ℚ) ≤ 10 := by norm_num
  refine ⟨intTrunc_nonneg _ (mul_nonneg h1 ten),
    intTrunc_nonneg _ (mul_nonneg h2 ten),
    intTrunc_nonneg _ (mul_nonneg h3 ten),
    intTrunc_nonneg _ (mul_nonneg h4 ten),
    intTrunc_nonneg _ (mul_nonneg h5 ten),
    intTrunc_nonneg _ (mul_nonneg h6 ten),
    intTrunc_nonneg _ (mul_nonneg h7 ten), ?_⟩
  unfold restSlackCoeff
  cases hg : dictGet? pid playersD with
  | none =>
    simp only [hg]
    exact intTrunc_nonneg _ (mul_nonneg h8 ten)
  | some p =>
    simp only [hg]
    exact intTrunc_nonneg _ (mul_nonneg (h9 (pid, p) (dictGet?_mem hg)) ten)

/-- Witness for `objective_scaling_amended` at the default-weight config. -/
theorem objective_scaling_witness :
    courtUtilCoeff cfgTiny = Int.floor (cfgTiny.court_utilization_penalty * 10) ∧
    restSlackCoeff [] cfgTiny "p1" = Int.floor (cfgTiny.rest_slack_penalty * 10) := by
  have h := objective_scaling_amended cfgTiny [] "p1"
    (by norm_num [cfgTiny]) (by norm_num [cfgTiny]) (by norm_num [cfgTiny])
    (by norm_num [cfgTiny]) (by norm_num [cfgTiny]) (by norm_num [cfgTiny])
    (by norm_num [cfgTiny]) (by norm_num [cfgTiny]) (by intro e he; simp at he)
  exact ⟨h.1, h.2.2.2.2.2.2.2⟩

/-! ### C3 — which previous assignments are frozen -/

/-- Claim C3 counterexample: with `current_slot = 5` and
`freeze_horizon_slots = 0` the claimed frozen interval `[5, 5)` is empty,
yet the non-locked previous assignment at slot 0 (strictly below
`current_slot`) is counted into the greedy backend's internal locked
set. -/
theorem freeze_interval_cex :
    ¬(("mA" ∈ greedyLocked rBelowWindow) ↔
      (rBelowWindow.config.current_slot ≤ 0 ∧
        0 < rBelowWindow.config.current_slot +
          rBelowWindow.config.freeze_horizon_slots)) := by
  intro h
  have hm : "mA" ∈ greedyLocked rBelowWindow := by decide
  have h2 := h.mp hm
  have h3 : rBelowWindow.config.current_slot = 5 := rfl
  omega

/-- Claim C3, amended: in both backends a previous assignment is counted
into the internal locked set iff it is locked or its `slot_id` is
*strictly below* `current_slot + freeze_horizon_slots` — the interval has
no lower bound, so slots before `current_slot` are frozen too.  For the
CP-SAT backend the frozen (non-locked) case additionally requires the
match to be known and the pinned variable to exist (`frozenCond`), and is
keyed on the effective (last) previous assignment of the match. -/
theorem freeze_membership_amended (r : ScheduleRequest) (mid : String) :
    (mid ∈ greedyLocked r ↔
      ∃ pa ∈ r.previous_assignments, pa.match_id = mid ∧
        (pa.locked = true ∨
          pa.slot_id < r.config.current_slot + r.config.freeze_horizon_slots)) ∧
    (mid ∈ cpsatLockedSet r ↔
      (∃ pa ∈ r.previous_assignments, pa.locked = true ∧ pa.match_id = mid) ∨
      (∃ e ∈ prevDict r, e.1 = mid ∧
        frozenCond r.config (matchesDict r) e = true)) :=
  ⟨mem_greedyLocked r mid, mem_cpsatLockedSet r mid⟩

/-! ### C5 — pre-compile reasons short-circuit the solve -/

/-- Claim C5: when any infeasibility reason was recorded during
constraint compilation, `CPSATScheduler.solve` does not consult the
solver at all: the result is `INFEASIBLE` with exactly the recorded
reasons and every match id unscheduled, independent of the solver
outcome. -/
theorem cpsat_short_circuit (r : ScheduleRequest) (st st' : CpStatus)
    (sol sol' : String → Nat → Nat → Bool) (h : buildReasons r ≠ []) :
    cpsatSolve r st sol =
      { status := SolverStatus.INFEASIBLE, objective_score := none,
        runtime_ms := 0, assignments := [], soft_violations := [],
        infeasible_reasons := buildReasons r,
        unscheduled_matches := (matchesDict r).map Prod.fst,
        moved_count := 0, locked_count := 0 } ∧
    cpsatSolve r st sol = cpsatSolve r st' sol' ∧
    ∀ m ∈ r.«matches», m.id ∈ (cpsatSolve r st sol).unscheduled_matches := by
  have hie : (buildReasons r).isEmpty = false := by
    cases hbr : buildReasons r with
    | nil => exact absurd hbr h
    | cons a l => rfl
  have hmain : cpsatSolve r st sol =
      { status := SolverStatus.INFEASIBLE, objective_score := none,
        runtime_ms := 0, assignments := [], soft_violations := [],
        infeasible_reasons := buildReasons r,
        unscheduled_matches := (matchesDict r).map Prod.fst,
        moved_count := 0, locked_count := 0 } := by
    unfold cpsatSolve
    simp [hie]
  have hmain' : cpsatSolve r st' sol' =
      { status := SolverStatus.INFEASIBLE, objective_score := none,
        runtime_ms := 0, assignments := [], soft_violations := [],
        infeasible_reasons := buildReasons r,
        unscheduled_matches := (matchesDict r).map Prod.fst,
        moved_count := 0, locked_count := 0 } := by
    unfold cpsatSolve
    simp [hie]
  refine ⟨hmain, hmain.trans hmain'.symm, ?_⟩
  intro m hm
  rw [hmain]
  exact buildDict_keys_mem Match.id hm

/-- Witness for `cpsat_short_circuit`: a match of duration 2 on a 1-slot
horizon records a no-valid-slots reason and short-circuits. -/
theorem cpsat_short_circuit_witness :
    (cpsatSolve rLongMatch CpStatus.optimal (fun _ _ _ => false)).status =
      SolverStatus.INFEASIBLE ∧
    (cpsatSolve rLongMatch CpStatus.optimal (fun _ _ _ => false)).infeasible_reasons =
      buildReasons rLongMatch ∧
    cpsatSolve rLongMatch CpStatus.optimal (fun _ _ _ => false) =
      cpsatSolve rLongMatch CpStatus.unknown (fun _ _ _ => true) ∧
    "mL" ∈ (cpsatSolve rLongMatch CpStatus.optimal (fun _ _ _ => false)).unscheduled_matches := by
  have h := cpsat_short_circuit rLongMatch .optimal .unknown
    (fun _ _ _ => false) (fun _ _ _ => true) (by decide)
  exact ⟨by rw [h.1], by rw [h.1], h.2.1, h.2.2 matchLong (by decide)⟩

/-! ### C8 — empty match list -/

/-- Claim C8 counterexample: on an empty match list the greedy backend
returns `FEASIBLE`, not the claimed `OPTIMAL`. -/
theorem empty_matches_cex :
    (greedySolve rEmptyReq).status = SolverStatus.FEASIBLE ∧
    (greedySolve rEmptyReq).status ≠ SolverStatus.OPTIMAL ∧
    (greedySolve rEmptyReq).assignments = [] := by
  refine ⟨by decide, by decide, by decide⟩

/-- Claim C8, amended: an empty match list yields empty assignments and a
feasible-family status in both backends, but the statuses differ: greedy
returns `FEASIBLE` (with no unscheduled matches), while CP-SAT returns
`OPTIMAL` provided the underlying solver reports `OPTIMAL` on the empty
model. -/
theorem empty_matches_amended (r : ScheduleRequest) (st : CpStatus)
    (sol : String → Nat → Nat → Bool) (h : r.«matches» = []) :
    ((greedySolve r).status = SolverStatus.FEASIBLE ∧
      (greedySolve r).assignments = [] ∧
      (greedySolve r).unscheduled_matches = []) ∧
    (st = CpStatus.optimal →
      (cpsatSolve r st sol).status = SolverStatus.OPTIMAL ∧
      (cpsatSolve r st sol).assignments = []) := by
  have hm : matchesDict r = [] := by
    unfold matchesDict
    rw [h]
    rfl
  constructor
  · unfold greedySolve
    rw [h]
    exact ⟨rfl, rfl, rfl⟩
  · intro hst
    subst hst
    have hr : buildReasons r = [] := by
      unfold buildReasons exactlyOnceReasons lockReasons
      rw [hm]
      simp only [List.filterMap_nil, List.nil_append]
      apply List.filterMap_eq_nil_iff.mpr
      intro e he
      rfl
    unfold cpsatSolve
    rw [hr]
    constructor
    · rfl
    · show (extract_solution r.config (matchesDict r) (prevDict r)
        (cpsatLockedSet r) sol).1 = []
      unfold extract_solution
      rw [hm]
      rfl

/-- Witness for `empty_matches_amended` on the concrete empty request. -/
theorem empty_matches_witness :
    (greedySolve rEmptyReq).status = SolverStatus.FEASIBLE ∧
    (cpsatSolve rEmptyReq CpStatus.optimal (fun _ _ _ => false)).status =
      SolverStatus.OPTIMAL := by
  have h := empty_matches_amended rEmptyReq CpStatus.optimal
    (fun _ _ _ => false) rfl
  exact ⟨h.1.1, (h.2 rfl).1⟩

/-! ### C2 — assignments non-empty iff feasible status -/

/-- If the build recorded no reasons, every match in the dict has a
non-empty candidate variable set. -/
theorem cands_ne_of_reasons_nil (r : ScheduleRequest) (e : String × Match)
    (he : e ∈ matchesDict r) (hre : buildReasons r = []) :
    (candKeys r.config e.2.duration_slots).isEmpty = false := by
  have h1 : exactlyOnceReasons r.config (matchesDict r) = [] :=
    (List.append_eq_nil.mp hre).1
  unfold exactlyOnceReasons at h1
  have h2 := List.filterMap_eq_nil_iff.mp h1 e he
  cases hc : (candKeys r.config e.2.duration_slots).isEmpty
  · rfl
  · rw [hc] at h2
    simp at h2

/-- If the build recorded no reasons and the solution satisfies
exactly-once, extraction succeeds for every match in the dict. -/
theorem extractOne_isSome_of (r : ScheduleRequest)
    (sol : String → Nat → Nat → Bool) (e : String × Match)
    (prevD : List (String × PreviousAssignment)) (lockedSet : List String)
    (he : e ∈ matchesDict r) (hre : buildReasons r = [])
    (hsat : exactlyOnceOk r.config (matchesDict r) sol = true) :
    ∃ a, extractOne r.config prevD lockedSet sol e.1 e.2 = some a := by
  have hcand := cands_ne_of_reasons_nil r e he hre
  have hall := List.all_eq_true.mp hsat e he
  rw [Bool.or_eq_true] at hall
  have hone : (candKeys r.config e.2.duration_slots).countP
      (fun tc => sol e.1 tc.1 tc.2) = 1 := by
    rcases hall with h | h
    · rw [hcand] at h
      simp at h
    · exact beq_iff_eq.mp h
  obtain ⟨x, hx, hpx⟩ := List.countP_pos_iff.mp (by omega : 0 <
    (candKeys r.config e.2.duration_slots).countP (fun tc => sol e.1 tc.1 tc.2))
  have hfind := find?_unique _ _ _ hone hx hpx
  unfold extractOne
  rw [hfind]
  exact ⟨_, rfl⟩

/-- Claim C2, amended: for the CP-SAT backend (with a solution that
satisfies the posted exactly-once constraints), `assignments` is
non-empty iff the status is OPTIMAL/FEASIBLE *and the match list is
non-empty* — an empty match list yields a feasible status with empty
assignments.  For the greedy backend only one direction survives: a
FEASIBLE result on a non-empty match list has assignments, but greedy can
also return INFEASIBLE with a non-empty partial assignment list. -/
theorem assignments_iff_amended (r : ScheduleRequest) (st : CpStatus)
    (sol : String → Nat → Nat → Bool)
    (hsat : exactlyOnceOk r.config (matchesDict r) sol = true) :
    ((cpsatSolve r st sol).assignments ≠ [] ↔
      (((cpsatSolve r st sol).status = SolverStatus.OPTIMAL ∨
        (cpsatSolve r st sol).status = SolverStatus.FEASIBLE) ∧
        r.«matches» ≠ [])) ∧
    ((greedySolve r).status = SolverStatus.FEASIBLE → r.«matches» ≠ [] →
      (greedySolve r).assignments ≠ []) := by
  constructor
  · by_cases hfeas : (cpsatSolve r st sol).status = SolverStatus.OPTIMAL ∨
        (cpsatSolve r st sol).status = SolverStatus.FEASIBLE
    · obtain ⟨hre, _, hasg⟩ := cpsatSolve_feasible_inv r st sol hfeas
      simp only [hfeas, true_and]
      rw [hasg]
      constructor
      · intro hne hmm
        apply hne
        unfold extract_solution
        rw [show matchesDict r = [] from by unfold matchesDict; rw [hmm]; rfl]
        rfl
      · intro hne
        have hmd : matchesDict r ≠ [] := by
          intro hmd
          exact hne ((buildDict_eq_nil Match.id _).mp hmd)
        obtain ⟨e0, he0⟩ := List.exists_mem_of_ne_nil _ hmd
        obtain ⟨a, ha⟩ := extractOne_isSome_of r sol e0 (prevDict r)
          (cpsatLockedSet r) he0 hre hsat
        intro hempty
        have hmem : a ∈ (extract_solution r.config (matchesDict r) (prevDict r)
            (cpsatLockedSet r) sol).1 := by
          unfold extract_solution
          exact List.mem_filterMap.mpr ⟨e0, he0, ha⟩
        rw [hempty] at hmem
        simp at hmem
    · simp only [hfeas, false_and, iff_false, ne_eq, not_not]
      -- the result is not in the feasible branch: its assignments are []
      by_cases hie : (buildReasons r).isEmpty = true
      · cases st with
        | optimal =>
          exfalso
          apply hfeas
          left
          unfold cpsatSolve
          simp [hie]
          rfl
        | feasible =>
          exfalso
          apply hfeas
          right
          unfold cpsatSolve
          simp [hie]
          rfl
        | infeasible =>
          unfold cpsatSolve
          simp [hie]
        | unknown =>
          unfold cpsatSolve
          simp [hie]
        | model_invalid =>
          unfold cpsatSolve
          simp [hie]
      · have hie' : (buildReasons r).isEmpty = false := by
          cases hb : (buildReasons r).isEmpty
          · rfl
          · exact absurd hb hie
        unfold cpsatSolve
        simp [hie']
  · intro hst hne
    rw [greedySolve_status] at hst
    by_cases hu : ((r.«matches».map Match.id).filter
        (fun mid => (dictGet? mid (greedyFinalSt r).assigned).isNone)).isEmpty = true
    · have hfil := List.isEmpty_iff.mp hu
      have horder : r.«matches».map Match.id ≠ [] := by
        intro hmm
        exact hne (List.map_eq_nil_iff.mp hmm)
      obtain ⟨mid0, hm0⟩ := List.exists_mem_of_ne_nil _ horder
      have hnone := List.filter_eq_nil_iff.mp hfil mid0 hm0
      obtain ⟨a, ha⟩ : ∃ a, dictGet? mid0 (greedyFinalSt r).assigned = some a := by
        cases hg : dictGet? mid0 (greedyFinalSt r).assigned with
        | none =>
          exfalso
          apply hnone
          rw [hg]
          rfl
        | some a => exact ⟨a, rfl⟩
      rw [greedySolve_assignments]
      intro hempty
      have hmem : a ∈ (r.«matches».map Match.id).filterMap
          (fun mid => dictGet? mid (greedyFinalSt r).assigned) :=
        List.mem_filterMap.mpr ⟨mid0, hm0, ha⟩
      rw [hempty] at hmem
      simp at hmem
    · rw [if_neg hu] at hst
      simp at hst

/-- Witness for `assignments_iff_amended` at a concrete one-match request
with an explicit exactly-once solution. -/
theorem assignments_iff_witness :
    ((cpsatSolve rSingle CpStatus.optimal solSingle).assignments ≠ [] ↔
      (((cpsatSolve rSingle CpStatus.optimal solSingle).status = SolverStatus.OPTIMAL ∨
        (cpsatSolve rSingle CpStatus.optimal solSingle).status = SolverStatus.FEASIBLE) ∧
        rSingle.«matches» ≠ [])) ∧
    ((greedySolve rSingle).status = SolverStatus.FEASIBLE → rSingle.«matches» ≠ [] →
      (greedySolve rSingle).assignments ≠ []) :=
  assignments_iff_amended rSingle CpStatus.optimal solSingle (by decide)

/-- Claim C2 counterexample: the greedy backend on an empty match list
returns status `FEASIBLE` with an empty assignments list, refuting
"`assignments` non-empty iff status in {OPTIMAL, FEASIBLE}". -/
theorem assignments_iff_cex :
    ¬(((greedySolve rEmptyReq).assignments ≠ []) ↔
      ((greedySolve rEmptyReq).status = SolverStatus.OPTIMAL ∨
       (greedySolve rEmptyReq).status = SolverStatus.FEASIBLE)) := by
  intro h
  have h1 : (greedySolve rEmptyReq).status = SolverStatus.FEASIBLE := by decide
  have h2 : (greedySolve rEmptyReq).assignments = [] := by decide
  exact (h.mpr (Or.inr h1)) h2

/-! ### C1 — locked and frozen previous assignments are preserved -/

/-- Claim C1 counterexample: in the greedy backend, a *locked* previous
assignment at slot 1 of a 1-slot horizon does not fit, is silently
re-placed at slot 0 with `moved = true`, and the result is still
`FEASIBLE` — so the locked assignment does not appear unchanged. -/
theorem lock_freeze_preservation_cex :
    (greedySolve rLockedLate).status = SolverStatus.FEASIBLE ∧
    rLockedLate.previous_assignments =
      [{ match_id := "mA", slot_id := 1, court_id := 1, locked := true }] ∧
    (∀ a ∈ (greedySolve rLockedLate).assignments,
      a.match_id = "mA" ∧ a.slot_id = 0 ∧ a.moved = true) := by
  refine ⟨by decide, by decide, by decide⟩

/-- Claim C1, amended: take the effective (last) previous assignment `pa`
of a match `m` of the request.  Greedy backend: whenever `pa` is locked
or lies before `current_slot + freeze_horizon_slots`, and it fits
(`slot_id + duration ≤ total_slots`), the result contains the assignment
at the previous `(slot_id, court_id)` with `moved = false`.  CP-SAT
backend: for every OPTIMAL/FEASIBLE result (of a solution satisfying the
posted exactly-once, lock-pin and freeze-pin constraints) the same holds
for every locked `pa` (an unrepresentable locked position short-circuits
to INFEASIBLE instead) and for every non-locked `pa` before the freeze
bound whose pinned variable exists.  A frozen assignment whose variable
does not exist (e.g. court out of range) is *not* preserved by either
backend — that is what the counterexample forces the claim to give up. -/
theorem lock_freeze_preservation_amended (r : ScheduleRequest) (st : CpStatus)
    (sol : String → Nat → Nat → Bool) (mid : String) (pa : PreviousAssignment)
    (m : Match)
    (hp : dictGet? mid (prevDict r) = some pa)
    (hm : dictGet? mid (matchesDict r) = some m) :
    ((pa.locked = true ∨
        pa.slot_id < r.config.current_slot + r.config.freeze_horizon_slots) →
      pa.slot_id + m.duration_slots ≤ r.config.total_slots →
      lockedAsg mid pa m ∈ (greedySolve r).assignments) ∧
    (exactlyOnceOk r.config (matchesDict r) sol = true →
      lockPinsOk r.config (matchesDict r) (prevDict r) sol = true →
      freezePinsOk r.config (matchesDict r) (prevDict r) sol = true →
      ((cpsatSolve r st sol).status = SolverStatus.OPTIMAL ∨
       (cpsatSolve r st sol).status = SolverStatus.FEASIBLE) →
      (pa.locked = true ∨
        (pa.slot_id < r.config.current_slot + r.config.freeze_horizon_slots ∧
         varExists r.config m.duration_slots pa.slot_id pa.court_id = true)) →
      lockedAsg mid pa m ∈ (cpsatSolve r st sol).assignments) := by
  obtain ⟨hpa_mem, hpa_id⟩ := buildDict_get_mem PreviousAssignment.match_id hp
  obtain ⟨hm_mem, hm_id⟩ := buildDict_get_mem Match.id hm
  have horder : mid ∈ r.«matches».map Match.id := by
    rw [← hm_id]
    exact List.mem_map_of_mem Match.id hm_mem
  constructor
  · intro hlf hfit
    have hlocked : mid ∈ greedyLocked r :=
      (mem_greedyLocked r mid).mpr ⟨pa, hpa_mem, hpa_id, hlf⟩
    have hset := lockPhase_sets r.config (matchesDict r) (prevDict r)
      (greedyLocked r) mid pa m hm hp hlocked hfit
      (r.«matches».map Match.id) { slotCourt := [], assigned := [], movedCount := 0 }
      horder
    have hfin : dictGet? mid (greedyFinalSt r).assigned = some (lockedAsg mid pa m) := by
      unfold greedyFinalSt
      exact placePhase_preserves r.config (matchesDict r) (playersDict r)
        (prevDict r) mid (lockedAsg mid pa m) (r.«matches».map Match.id) _ hset
    rw [greedySolve_assignments]
    exact List.mem_filterMap.mpr ⟨mid, horder, hfin⟩
  · intro hone hlp hfp hfeas hlf
    obtain ⟨hre, _, hasg⟩ := cpsatSolve_feasible_inv r st sol hfeas
    -- the pinned variable exists and is set, and `mid` is internally locked
    have hkey : varExists r.config m.duration_slots pa.slot_id pa.court_id = true ∧
        sol mid pa.slot_id pa.court_id = true ∧ mid ∈ cpsatLockedSet r := by
      by_cases hl : pa.locked = true
      · have hv := lockReason_varExists r mid pa m hp hm hl hre
        refine ⟨hv, sol_pinned_of_locked r sol mid pa m hp hm hl hv hlp, ?_⟩
        exact (mem_cpsatLockedSet r mid).mpr (Or.inl ⟨pa, hpa_mem, hl, hpa_id⟩)
      · have hl' : pa.locked = false := by
          cases hb : pa.locked
          · rfl
          · exact absurd hb hl
        rcases hlf with hcontra | ⟨hw, hv⟩
        · exact absurd hcontra hl
        · refine ⟨hv, sol_pinned_of_frozen r sol mid pa m hp hm hl' hw hv hfp, ?_⟩
          refine (mem_cpsatLockedSet r mid).mpr (Or.inr ⟨(mid, pa), dictGet?_mem hp, rfl, ?_⟩)
          unfold frozenCond
          rw [show dictGet? (mid, pa).1 (matchesDict r) = some m from hm]
          dsimp only
          rw [hl', hv]
          simp [hw]
    obtain ⟨hv, hsol, hlockset⟩ := hkey
    have hvmem : (pa.slot_id, pa.court_id) ∈ candKeys r.config m.duration_slots :=
      (mem_candKeys r.config m.duration_slots pa.slot_id pa.court_id).mpr hv
    have hcnt := countP_one_of_sat r.config (matchesDict r) sol (mid, m)
      (dictGet?_mem hm) hone (isEmpty_false_of_mem hvmem)
    have hext := extractOne_pinned r.config (prevDict r) (cpsatLockedSet r) sol
      mid m pa.slot_id pa.court_id hvmem hsol hcnt hlockset
    rw [hasg]
    unfold extract_solution
    exact List.mem_filterMap.mpr ⟨(mid, m), dictGet?_mem hm, hext⟩

/-- Witness for `lock_freeze_preservation_amended`: one locked and one
frozen previous assignment, both preserved by both backends. -/
theorem lock_freeze_preservation_witness :
    (lockedAsg "f1" { match_id := "f1", slot_id := 1, court_id := 1, locked := true }
        matchF1 ∈ (greedySolve rFreezeMix).assignments) ∧
    (lockedAsg "f1" { match_id := "f1", slot_id := 1, court_id := 1, locked := true }
        matchF1 ∈ (cpsatSolve rFreezeMix CpStatus.optimal solFreezeMix).assignments) ∧
    (lockedAsg "f2" { match_id := "f2", slot_id := 0, court_id := 1 }
        matchF2 ∈ (cpsatSolve rFreezeMix CpStatus.optimal solFreezeMix).assignments) := by
  have h1 := lock_freeze_preservation_amended rFreezeMix CpStatus.optimal solFreezeMix
    "f1" { match_id := "f1", slot_id := 1, court_id := 1, locked := true } matchF1
    (by decide) (by decide)
  have h2 := lock_freeze_preservation_amended rFreezeMix CpStatus.optimal solFreezeMix
    "f2" { match_id := "f2", slot_id := 0, court_id := 1 } matchF2
    (by decide) (by decide)
  refine ⟨h1.1 (Or.inl rfl) (by decide), ?_, ?_⟩
  · exact h1.2 (by decide) (by decide) (by decide) (Or.inl (by decide)) (Or.inl rfl)
  · exact h2.2 (by decide) (by decide) (by decide) (Or.inl (by decide))
      (Or.inr ⟨by decide, by decide⟩)

/-! ### C6 — hard rest separation -/

/-- Claim C6: in every OPTIMAL/FEASIBLE CP-SAT result (of a solution
satisfying the posted exactly-once, start-linkage, end-linkage and rest
constraints), for every participant `p` whose rest is hard (or with soft
rest disabled), any two distinct assigned matches containing `p` are
separated by at least `rest_slots(p)`: one of them ends at least
`rest_slots(p)` slots before the other starts, and it is the
earlier-starting one that does so.  `rest_slots(p)` is the player's
`rest_slots` when a player record exists, else `default_rest_slots`. -/
theorem hard_rest_separation (r : ScheduleRequest) (st : CpStatus)
    (sol : String → Nat → Nat → Bool) (startv endv : String → Nat)
    (p : String) (ai aj : Assignment) (mi mj : Match)
    (hone : exactlyOnceOk r.config (matchesDict r) sol = true)
    (hlink : linkOk r.config (matchesDict r) sol startv = true)
    (hend : endLinkOk (matchesDict r) startv endv = true)
    (hrest : restFamilyOk r.config (playersDict r) (matchesDict r) startv endv = true)
    (hfeas : (cpsatSolve r st sol).status = SolverStatus.OPTIMAL ∨
             (cpsatSolve r st sol).status = SolverStatus.FEASIBLE)
    (hhard : restIsHardOf (playersDict r) p = true ∨
             r.config.soft_rest_enabled = false)
    (hai : ai ∈ (cpsatSolve r st sol).assignments)
    (haj : aj ∈ (cpsatSolve r st sol).assignments)
    (hmi : dictGet? ai.match_id (matchesDict r) = some mi)
    (hmj : dictGet? aj.match_id (matchesDict r) = some mj)
    (hpi : p ∈ playerIdsU mi) (hpj : p ∈ playerIdsU mj)
    (hne : ai.match_id ≠ aj.match_id) :
    (ai.slot_id + ai.duration_slots + restSlotsOf (playersDict r) r.config p ≤
        aj.slot_id ∨
     aj.slot_id + aj.duration_slots + restSlotsOf (playersDict r) r.config p ≤
        ai.slot_id) ∧
    (ai.slot_id < aj.slot_id →
      ai.slot_id + ai.duration_slots + restSlotsOf (playersDict r) r.config p ≤
        aj.slot_id) := by
  obtain ⟨hre, _, hasg⟩ := cpsatSolve_feasible_inv r st sol hfeas
  rw [hasg] at hai haj
  unfold extract_solution at hai haj
  obtain ⟨ei, hei, hexti⟩ := List.mem_filterMap.mp hai
  obtain ⟨ej, hej, hextj⟩ := List.mem_filterMap.mp haj
  obtain ⟨hfindi, hidi, hduri⟩ := extractOne_some_inv _ _ _ _ _ _ _ hexti
  obtain ⟨hfindj, hidj, hdurj⟩ := extractOne_some_inv _ _ _ _ _ _ _ hextj
  have hndk := buildDict_keys_nodup Match.id r.«matches»
  have hgi : dictGet? ei.1 (matchesDict r) = some ei.2 :=
    dictGet?_of_mem_nodup hndk (by simpa using hei)
  have hgj : dictGet? ej.1 (matchesDict r) = some ej.2 :=
    dictGet?_of_mem_nodup hndk (by simpa using hej)
  have hmi' : mi = ei.2 := by
    rw [hidi, hgi] at hmi
    exact (Option.some.injEq _ _).mp hmi.symm
  have hmj' : mj = ej.2 := by
    rw [hidj, hgj] at hmj
    exact (Option.some.injEq _ _).mp hmj.symm
  have hmiid : mi.id = ai.match_id := by
    rw [hmi', hidi]
    exact buildDict_entry_key Match.id _ ei hei
  have hmjid : mj.id = aj.match_id := by
    rw [hmj', hidj]
    exact buildDict_entry_key Match.id _ ej hej
  -- both matches are in player p's bucket
  obtain ⟨ms, hms, hmi_in⟩ := mem_playerMatchesOf (matchesDict r) ei p hei
    (by rw [hmi'] at hpi; exact hpi)
  obtain ⟨ms', hms', hmj_in⟩ := mem_playerMatchesOf (matchesDict r) ej p hej
    (by rw [hmj'] at hpj; exact hpj)
  have hmseq : ms' = ms := by
    rw [hms] at hms'
    exact ((Option.some.injEq _ _).mp hms').symm
  rw [hmseq] at hmj_in
  rw [← hmi'] at hmi_in
  rw [← hmj'] at hmj_in
  have hmne : mi ≠ mj := by
    intro he
    apply hne
    rw [← hmiid, he, hmjid]
  -- the rest-family check fires for (p, ms)
  have hall := List.all_eq_true.mp hrest (p, ms) (dictGet?_mem hms)
  dsimp only at hall
  have hlen : ¬ (ms.length ≤ 1) := by
    have := two_mem_lt_length ms mi mj hmi_in hmj_in hmne
    omega
  rw [if_neg hlen] at hall
  have hhb : (restIsHardOf (playersDict r) p || !r.config.soft_rest_enabled) = true := by
    rcases hhard with h | h
    · simp [h]
    · simp [h]
  rw [if_pos hhb] at hall
  have hpair := pairsOk_spec _ ms mi mj hall hmi_in hmj_in hmne
  have hdisj :
      (endv mi.id + restSlotsOf (playersDict r) r.config p ≤ startv mj.id) ∨
      (endv mj.id + restSlotsOf (playersDict r) r.config p ≤ startv mi.id) := by
    rcases hpair with h | h <;>
      · unfold restPairBool at h
        rw [Bool.or_eq_true] at h
        rcases h with h | h
        · first
            | exact Or.inl (by exact_mod_cast decide_eq_true_eq.mp h)
            | exact Or.inr (by exact_mod_cast decide_eq_true_eq.mp h)
        · first
            | exact Or.inl (by exact_mod_cast decide_eq_true_eq.mp h)
            | exact Or.inr (by exact_mod_cast decide_eq_true_eq.mp h)
  -- linkage: startv/endv agree with the extracted slots
  have hstart : ∀ (e : String × Match) (a : Assignment),
      e ∈ matchesDict r →
      (candKeys r.config e.2.duration_slots).find?
        (fun tc => sol e.1 tc.1 tc.2) = some (a.slot_id, a.court_id) →
      startv e.1 = a.slot_id := by
    intro e a he hfind
    have hcandne : (candKeys r.config e.2.duration_slots).isEmpty = false :=
      isEmpty_false_of_mem (List.mem_of_find?_eq_some hfind)
    have hcnt := countP_one_of_sat r.config (matchesDict r) sol e he hone hcandne
    have hsum := sum_if_of_unique _ _ _ hcnt hfind
    have hlinke := List.all_eq_true.mp hlink e he
    rw [Bool.or_eq_true] at hlinke
    rcases hlinke with h | h
    · rw [hcandne] at h
      simp at h
    · rw [beq_iff_eq.mp h]
      unfold startSum
      exact hsum
  have hstarti : startv ei.1 = ai.slot_id := hstart ei ai hei hfindi
  have hstartj : startv ej.1 = aj.slot_id := hstart ej aj hej hfindj
  have hendi : endv ei.1 = ai.slot_id + ai.duration_slots := by
    have h2 := beq_iff_eq.mp (List.all_eq_true.mp hend ei hei)
    rw [h2, hstarti, hduri]
  have hendj : endv ej.1 = aj.slot_id + aj.duration_slots := by
    have h2 := beq_iff_eq.mp (List.all_eq_true.mp hend ej hej)
    rw [h2, hstartj, hdurj]
  have e1 : endv mi.id = ai.slot_id + ai.duration_slots := by
    rw [hmiid, hidi]
    exact hendi
  have s1 : startv mi.id = ai.slot_id := by
    rw [hmiid, hidi]
    exact hstarti
  have e2 : endv mj.id = aj.slot_id + aj.duration_slots := by
    rw [hmjid, hidj]
    exact hendj
  have s2 : startv mj.id = aj.slot_id := by
    rw [hmjid, hidj]
    exact hstartj
  rw [e1, s2, e2, s1] at hdisj
  refine ⟨hdisj, ?_⟩
  intro hlt
  rcases hdisj with h | h
  · exact h
  · omega

/-- Witness for `hard_rest_separation`: two matches of hard-rest player
`p1` (rest 2), scheduled at slots 0 and 3 with duration 1. -/
theorem hard_rest_separation_witness :
    ((0 + 1 + restSlotsOf (playersDict rRest) rRest.config "p1" ≤ 3 ∨
      3 + 1 + restSlotsOf (playersDict rRest) rRest.config "p1" ≤ 0) ∧
     ((0:Nat) < 3 →
      0 + 1 + restSlotsOf (playersDict rRest) rRest.config "p1" ≤ 3)) := by
  have h := hard_rest_separation rRest CpStatus.optimal solRest startvRest endvRest
    "p1"
    { match_id := "mA", slot_id := 0, court_id := 1, duration_slots := 1,
      moved := false, previous_slot_id := none, previous_court_id := none }
    { match_id := "mB", slot_id := 3, court_id := 1, duration_slots := 1,
      moved := false, previous_slot_id := none, previous_court_id := none }
    matchA matchB
    (by decide) (by decide) (by decide) (by decide)
    (Or.inl (by decide)) (Or.inl (by decide))
    (by decide) (by decide) (by decide) (by decide)
    (by decide) (by decide) (by decide)
  exact h

/-! ### C10 — greedy result independent of pin fields -/

/-- Claim C10: `GreedyBackend.solve` never reads `pinned_slot_id` or
`pinned_court_id`; two requests that differ only in those fields of their
previous assignments produce identical `ScheduleResult`s. -/
theorem greedy_pin_independence (r1 r2 : ScheduleRequest)
    (hcfg : r1.config = r2.config) (hpl : r1.players = r2.players)
    (hma : r1.«matches» = r2.«matches»)
    (hso : r1.solver_options = r2.solver_options)
    (hpa : r1.previous_assignments.map erasePA =
           r2.previous_assignments.map erasePA) :
    greedySolve r1 = greedySolve r2 := by
  have h1 := greedySolve_erase r1
  have h2 := greedySolve_erase r2
  rw [← h1, ← h2]
  have he : ({ r1 with previous_assignments :=
        r1.previous_assignments.map erasePA } : ScheduleRequest) =
      { r2 with previous_assignments :=
        r2.previous_assignments.map erasePA } := by
    cases r1
    cases r2
    simp_all
  rw [he]

/-- Witness for `greedy_pin_independence`: two requests whose only
difference is a slot pin versus a court pin. -/
theorem greedy_pin_independence_witness :
    greedySolve rPinA = greedySolve rPinB ∧
    rPinA.previous_assignments ≠ rPinB.previous_assignments := by
  refine ⟨greedy_pin_independence rPinA rPinB rfl rfl rfl rfl (by decide), by decide⟩

end CpSatSched
